import Mathlib

/-!
# todo_server: the task / participant store and its HTTP handlers

A shallow embedding of `cmd/main.go` (the `Task` and `Participant` types, the
connection set-up), `cmd/create_db.go` (the schema), `cmd/tasks_handler.go` and
`cmd/participant_handler.go` (the handlers).

The handlers talk to SQLite through `database/sql`.  Every SQL statement that
occurs in the source is one function on an explicit database value `DB`; a
handler is a function `DB → request → DB × Response` that runs the statements in
the order of the source and returns where the source returns.

What the storage engine contributes is kept in one place, `Engine`:

* whether foreign-key constraints are enforced.  SQLite only parses `FOREIGN KEY`
  clauses unless enforcement is switched on for the connection
  (`PRAGMA foreign_keys = ON`, or `_foreign_keys=1` in the DSN of
  mattn/go-sqlite3).  `main` opens `users.db` with a bare file name and runs no
  pragma, so the program runs with enforcement off; the theorems that do not
  depend on the setting are stated for both.
* how a TEXT parameter is coerced when it is compared with, or stored into, a
  column of INTEGER affinity (the path variable `id` is passed to the statements
  as a Go string).
* what `Scan` into a Go `string` yields for a column declared `DATETIME`.  The
  driver does not hand such a column back as the text that was written: it parses
  it as a timestamp, and `database/sql` prints the resulting `time.Time` in
  RFC 3339.  Columns declared `TEXT` come back as written.

Reads and writes that fail for reasons outside the data (I/O errors, a full
disk, exhaustion of the 64-bit rowid space) are not modelled: a statement fails
only on a constraint violation.
-/

set_option linter.dupNamespace false

namespace TodoServer

/-! ## Types of `main.go` -/

/-- Go `type Participant struct`. -/
structure Participant where
  ID : Int
  Name : String
deriving DecidableEq, Repr

/-- Go `type Task struct`. -/
structure Task where
  ID : Int
  Priority : String
  Task : String
  StartDate : String
  EndDate : String
  Status : String
  Participants : List Participant
deriving DecidableEq, Repr

/-- The DSN handed to `sql.Open("sqlite3", dbPath)`. -/
def dbPath : String := "users.db"

/-! ## The storage engine -/

/-- A value bound to a `?` placeholder: Go `int` binds as INTEGER, Go `string` as TEXT. -/
inductive Value where
  | integer (n : Int)
  | text (s : String)
deriving DecidableEq, Repr

/-- The engine settings the handlers depend on. -/
structure Engine where
  /-- Foreign-key enforcement (`PRAGMA foreign_keys`). -/
  foreignKeys : Bool
  /-- Coercion of a TEXT value under INTEGER/NUMERIC affinity: the integer the text
  denotes, or `none` when the text stays TEXT (and then equals no integer). -/
  numeric : String → Option Int
  /-- The Go string that `Scan` yields for a `DATETIME` column into which the given text
  was written. -/
  scanDatetime : String → String

/-- The integer a bound value is compared or stored as in an INTEGER column. -/
def Engine.asInt (e : Engine) : Value → Option Int
  | .integer n => some n
  | .text s => e.numeric s

/-- Row of `tasks` (`create_db.go`, `queryTasks`). -/
structure TaskRow where
  id : Int
  priority : String
  task : String
  start_date : String
  end_date : String
  status : String
deriving DecidableEq, Repr

/-- Row of `participants` (`queryParticipants`). -/
structure ParticipantRow where
  id : Int
  name : String
deriving DecidableEq, Repr

/-- Row of `task_participants` (`queryTaskParticipants`). -/
structure TaskParticipantRow where
  task_id : Int
  participant_id : Int
deriving DecidableEq, Repr

/-- The database: the three relations the task and participant handlers use, in
insertion order, and the `sqlite_sequence` entries of the two AUTOINCREMENT keys. -/
structure DB where
  tasks : List TaskRow
  participants : List ParticipantRow
  task_participants : List TaskParticipantRow
  tasks_seq : Int
  participants_seq : Int
deriving DecidableEq, Repr

/-- The database right after `initDB` on a new file: `CREATE TABLE IF NOT EXISTS`
for every relation, no rows. -/
def initDB : DB :=
  { tasks := [], participants := [], task_participants := [],
    tasks_seq := 0, participants_seq := 0 }

/-- The key of `INTEGER PRIMARY KEY AUTOINCREMENT`: one more than the largest key the
table holds or has ever held. -/
def nextRowid (seq : Int) (ids : List Int) : Int :=
  ids.foldl max seq + 1

/-- Whether column value `col` equals the bound parameter. -/
def Engine.eqParam (e : Engine) (col : Int) (v : Value) : Bool :=
  e.asInt v == some col

/-- Statement `INSERT INTO tasks (priority, task, start_date, end_date, status)
VALUES (?, ?, ?, ?, ?)`, returning the new database and `LastInsertId`. -/
def insertTask (db : DB) (priority task start_date end_date status : String) : DB × Int :=
  let id := nextRowid db.tasks_seq (db.tasks.map (·.id))
  ({ db with
      tasks := db.tasks ++ [{ id := id, priority := priority, task := task,
                              start_date := start_date, end_date := end_date,
                              status := status }],
      tasks_seq := id }, id)

/-- Statement `INSERT INTO participants (name) VALUES (?)`. -/
def insertParticipant (db : DB) (name : String) : DB :=
  let id := nextRowid db.participants_seq (db.participants.map (·.id))
  { db with participants := db.participants ++ [{ id := id, name := name }],
            participants_seq := id }

/-- Statement `INSERT INTO task_participants (task_id, participant_id) VALUES (?, ?)`.
It fails on a duplicate of the composite primary key and, with enforcement on, when
either parent row is missing.  A text that the engine cannot coerce would be kept as
TEXT by SQLite; the handlers bind a text here only after an `UPDATE ... WHERE id = ?`
with the same text has matched a row, so that case is reported as a failed statement. -/
def insertTaskParticipant (e : Engine) (db : DB) (task_id participant_id : Value) :
    Except String DB :=
  match e.asInt task_id, e.asInt participant_id with
  | some t, some p =>
    if { task_id := t, participant_id := p : TaskParticipantRow } ∈ db.task_participants then
      .error "UNIQUE constraint failed: task_participants.task_id, task_participants.participant_id"
    else if e.foreignKeys &&
        !(decide (t ∈ db.tasks.map (·.id)) && decide (p ∈ db.participants.map (·.id))) then
      .error "FOREIGN KEY constraint failed"
    else
      .ok { db with task_participants :=
              db.task_participants ++ [{ task_id := t, participant_id := p }] }
  | _, _ => .error "datatype mismatch"

/-- Statement `UPDATE tasks SET priority = ?, task = ?, start_date = ?, end_date = ?,
status = ? WHERE id = ?`, returning the new database and `RowsAffected`. -/
def updateTask (e : Engine) (db : DB) (priority task start_date end_date status : String)
    (id : Value) : DB × Nat :=
  ({ db with tasks := db.tasks.map fun r =>
      if e.eqParam r.id id then
        { r with priority := priority, task := task, start_date := start_date,
                 end_date := end_date, status := status }
      else r },
   (db.tasks.filter fun r => e.eqParam r.id id).length)

/-- Statement `DELETE FROM task_participants WHERE task_id = ?`. -/
def deleteTaskParticipants (e : Engine) (db : DB) (task_id : Value) : DB :=
  { db with task_participants :=
      db.task_participants.filter fun tp => !e.eqParam tp.task_id task_id }

/-- Statement `DELETE FROM tasks WHERE id = ?`, returning `RowsAffected`; with
enforcement on, `ON DELETE CASCADE` removes the association rows that reference a
deleted task. -/
def deleteTask (e : Engine) (db : DB) (id : Value) : DB × Nat :=
  let deleted := db.tasks.filter fun r => e.eqParam r.id id
  ({ db with
      tasks := db.tasks.filter fun r => !e.eqParam r.id id,
      task_participants :=
        if e.foreignKeys then
          db.task_participants.filter fun tp => !decide (tp.task_id ∈ deleted.map (·.id))
        else db.task_participants },
   deleted.length)

/-- Statement `DELETE FROM participants WHERE id = ?`; with enforcement on,
`ON DELETE CASCADE` removes the association rows that reference a deleted participant. -/
def deleteParticipant (e : Engine) (db : DB) (id : Value) : DB :=
  let deleted := db.participants.filter fun r => e.eqParam r.id id
  { db with
      participants := db.participants.filter fun r => !e.eqParam r.id id,
      task_participants :=
        if e.foreignKeys then
          db.task_participants.filter fun tp =>
            !decide (tp.participant_id ∈ deleted.map (·.id))
        else db.task_participants }

/-- Query `SELECT id, priority, task, start_date, end_date, status FROM tasks`. -/
def selectTasks (db : DB) : List TaskRow :=
  db.tasks

/-- Query `SELECT t.id, t.priority, t.task, t.start_date, t.end_date, t.status
FROM tasks t WHERE t.id = ?`. -/
def selectTask (e : Engine) (db : DB) (id : Value) : List TaskRow :=
  db.tasks.filter fun r => e.eqParam r.id id

/-- Query `SELECT p.id, p.name FROM participants p JOIN task_participants tp
ON p.id = tp.participant_id WHERE tp.task_id = ?`, scanned into `Participant`s. -/
def selectParticipants (e : Engine) (db : DB) (task_id : Value) : List Participant :=
  ((db.task_participants.filter fun tp => e.eqParam tp.task_id task_id).map fun tp =>
    (db.participants.filter fun p => p.id == tp.participant_id).map fun p =>
      { ID := p.id, Name := p.name : Participant }).flatten

/-! ## `fmt.Sscanf(id, "%d", &participantID)` -/

/-- Go `fmt.isSpace`: the white-space table of package `fmt`. -/
def isSpace (c : Char) : Bool :=
  let n := c.toNat
  (0x0009 ≤ n && n ≤ 0x000d) || n == 0x0020 || n == 0x0085 || n == 0x00a0 || n == 0x1680 ||
  (0x2000 ≤ n && n ≤ 0x200a) || n == 0x2028 || n == 0x2029 || n == 0x202f || n == 0x205f ||
  n == 0x3000

/-- Go `(*ss).SkipSpace` as `Sscanf` runs it (`nlIsSpace = false`): white space is
skipped, a newline is the error "unexpected newline". -/
def skipSpace : List Char → Option (List Char)
  | [] => some []
  | c :: cs =>
    if c.toNat = 10 then none
    else if isSpace c then skipSpace cs
    else some (c :: cs)

/-- Go `(*ss).scanInt` for the verb `%d` into an `int`: skip white space, accept one
sign, take the longest run of characters of `"0123456789"` (the digit string `getBase`
returns for `%d`; at least one is required, else "expected integer"), and hand the token
to `strconv.ParseInt(tok, 10, 64)`, which rejects a value outside the 64-bit range.
Input after the token is left unread. -/
def scanInt (input : List Char) : Option Int :=
  match skipSpace input with
  | none => none
  | some rest =>
    let signed : Bool × List Char :=
      match rest with
      | '+' :: r => (false, r)
      | '-' :: r => (true, r)
      | r => (false, r)
    let tok := signed.2.takeWhile Char.isDigit
    if tok.isEmpty then none
    else
      let n : Nat := tok.foldl (fun acc c => 10 * acc + (c.toNat - 48)) 0
      let v : Int := if signed.1 then -(n : Int) else (n : Int)
      if -(2 : Int) ^ 63 ≤ v ∧ v ≤ (2 : Int) ^ 63 - 1 then some v else none

/-- The call `fmt.Sscanf(id, "%d", &participantID)`: the scanned integer, or `none`
when `err != nil`. -/
def Sscanf (id : String) : Option Int :=
  scanInt id.data

/-! ## Responses -/

/-- What a handler writes after the status line. -/
inductive Payload where
  | message (text : String)
  | task (t : Task)
  | tasks (ts : List Task)
  | participants (ps : List Participant)
  | empty
deriving DecidableEq, Repr

/-- An HTTP response: status code and body. -/
structure Response where
  status : Nat
  payload : Payload
deriving DecidableEq, Repr

/-- Status of `http.StatusBadRequest`: the spec's `InvalidInput`. -/
def StatusBadRequest : Nat := 400

/-- Status of `http.StatusNotFound`: the spec's `NotFound`. -/
def StatusNotFound : Nat := 404

/-- Status of `http.StatusInternalServerError`: the spec's `StorageError`. -/
def StatusInternalServerError : Nat := 500

/-- Status of `http.StatusOK`, also what a handler sends when it writes a body without
calling `WriteHeader`. -/
def StatusOK : Nat := 200

/-- Status of `http.StatusCreated`. -/
def StatusCreated : Nat := 201

/-- Status of `http.StatusNoContent`. -/
def StatusNoContent : Nat := 204

/-- Go `http.Error(w, msg, code)`. -/
def httpError (msg : String) (code : Nat) : Response :=
  { status := code, payload := .message msg }

/-! ## Handlers of `tasks_handler.go` -/

/-- The `Task` a handler scans from a row of `tasks` with `Scan(&task.ID,
&task.Priority, &task.Task, &task.StartDate, &task.EndDate, &task.Status)`, with the
participants it collected for it; `start_date` and `end_date` are `DATETIME` columns. -/
def scanTask (e : Engine) (r : TaskRow) (participants : List Participant) : Task :=
  { ID := r.id, Priority := r.priority, Task := r.task,
    StartDate := e.scanDatetime r.start_date, EndDate := e.scanDatetime r.end_date,
    Status := r.status, Participants := participants }

/-- Go `getAllTasksHandler`: one participant query per task row. -/
def getAllTasksHandler (e : Engine) (db : DB) : DB × Response :=
  (db, { status := StatusOK,
         payload := .tasks ((selectTasks db).map fun r =>
           scanTask e r (selectParticipants e db (.integer r.id))) })

/-- The loop `for _, participant := range task.Participants` of `addTaskHandler` and
`updateTaskHandler`: one `INSERT INTO task_participants` per submitted participant,
stopping at the first failed statement; the flag tells whether all succeeded. -/
def insertParticipants (e : Engine) (task_id : Value) : DB → List Participant → DB × Bool
  | db, [] => (db, true)
  | db, participant :: rest =>
    match insertTaskParticipant e db task_id (.integer participant.ID) with
    | .error _ => (db, false)
    | .ok db1 => insertParticipants e task_id db1 rest

/-- Go `addTaskHandler`; `body` is the decoded request body, `none` when
`json.NewDecoder(r.Body).Decode(&newTask)` fails. -/
def addTaskHandler (e : Engine) (db : DB) (body : Option Task) : DB × Response :=
  match body with
  | none => (db, httpError "Invalid task data" StatusBadRequest)
  | some newTask =>
    let (db1, taskID) := insertTask db newTask.Priority newTask.Task newTask.StartDate
      newTask.EndDate newTask.Status
    let newTask := { newTask with ID := taskID }
    match insertParticipants e (.integer newTask.ID) db1 newTask.Participants with
    | (db2, false) => (db2, httpError "Failed to add participants to task" StatusInternalServerError)
    | (db2, true) => (db2, { status := StatusOK, payload := .task newTask })

/-- Go `getTaskHandler`; `id` is `mux.Vars(r)["id"]`.  `QueryRow(...).Scan` takes the
first row of the result and reports `sql.ErrNoRows` when there is none. -/
def getTaskHandler (e : Engine) (db : DB) (id : String) : DB × Response :=
  if id = "" then (db, httpError "Task ID is required" StatusBadRequest)
  else
    match selectTask e db (.text id) with
    | [] => (db, httpError "Task not found" StatusNotFound)
    | r :: _ =>
      (db, { status := StatusOK,
             payload := .task (scanTask e r (selectParticipants e db (.text id))) })

/-- Go `deleteTaskHandler`. -/
def deleteTaskHandler (e : Engine) (db : DB) (id : String) : DB × Response :=
  if id = "" then (db, httpError "Task ID is required" StatusBadRequest)
  else
    let db1 := deleteTaskParticipants e db (.text id)
    let (db2, affectedRows) := deleteTask e db1 (.text id)
    if affectedRows = 0 then (db2, httpError "No task found with the given ID" StatusNotFound)
    else (db2, { status := StatusNoContent, payload := .empty })

/-- Go `updateTaskHandler`. -/
def updateTaskHandler (e : Engine) (db : DB) (id : String) (body : Option Task) :
    DB × Response :=
  if id = "" then (db, httpError "Task ID is required" StatusBadRequest)
  else
    match body with
    | none => (db, httpError "Invalid task data" StatusBadRequest)
    | some updatedTask =>
      let (db1, affectedRows) := updateTask e db updatedTask.Priority updatedTask.Task
        updatedTask.StartDate updatedTask.EndDate updatedTask.Status (.text id)
      if affectedRows = 0 then
        (db1, httpError "No task found with the given ID" StatusNotFound)
      else
        let db2 := deleteTaskParticipants e db1 (.text id)
        match insertParticipants e (.text id) db2 updatedTask.Participants with
        | (db3, false) =>
          (db3, httpError "Failed to add participants to task" StatusInternalServerError)
        | (db3, true) => (db3, { status := StatusOK, payload := .task updatedTask })

/-! ## Handlers of `participant_handler.go` -/

/-- Go `getAllParticipantsHandler`. -/
def getAllParticipantsHandler (db : DB) : DB × Response :=
  (db, { status := StatusOK,
         payload := .participants (db.participants.map fun p =>
           { ID := p.id, Name := p.name }) })

/-- Go `addParticipantHandler`; `body` is the decoded request body. -/
def addParticipantHandler (db : DB) (body : Option Participant) : DB × Response :=
  match body with
  | none => (db, httpError "Invalid input" StatusBadRequest)
  | some participant =>
    (insertParticipant db participant.Name,
     { status := StatusCreated,
       payload := .message
         ("Participant with name " ++ participant.Name ++ " added successfully") })

/-- Go `deleteParticipantHandler`; `id` is `mux.Vars(r)["id"]`. -/
def deleteParticipantHandler (e : Engine) (db : DB) (id : String) : DB × Response :=
  match Sscanf id with
  | none => (db, httpError "Invalid ID" StatusBadRequest)
  | some participantID =>
    (deleteParticipant e db (.integer participantID),
     { status := StatusOK,
       payload := .message
         ("Participant with ID " ++ toString participantID ++ " deleted successfully") })

/-! ## The program as a whole -/

/-- The requests the router of `main` dispatches to the task and participant handlers. -/
inductive Request where
  | listTasks
  | getTask (id : String)
  | createTask (body : Option Task)
  | updateTask (id : String) (body : Option Task)
  | deleteTask (id : String)
  | listParticipants
  | createParticipant (body : Option Participant)
  | deleteParticipant (id : String)
deriving DecidableEq, Repr

/-- One request served against the shared database handle. -/
def serve (e : Engine) (db : DB) : Request → DB × Response
  | .listTasks => getAllTasksHandler e db
  | .getTask id => getTaskHandler e db id
  | .createTask body => addTaskHandler e db body
  | .updateTask id body => updateTaskHandler e db id body
  | .deleteTask id => deleteTaskHandler e db id
  | .listParticipants => getAllParticipantsHandler db
  | .createParticipant body => addParticipantHandler db body
  | .deleteParticipant id => deleteParticipantHandler e db id

/-- The database after a sequence of requests served one after the other. -/
def run (e : Engine) (db : DB) : List Request → DB
  | [] => db
  | r :: rs => run e (serve e db r).1 rs

/-- SQLite's `sqlite3Isspace`: blank, tab, line feed, vertical tab, form feed and
carriage return. -/
def sqliteIsSpace (c : Char) : Bool :=
  c.toNat == 0x20 || (0x09 ≤ c.toNat && c.toNat ≤ 0x0d)

/-- Integer-literal case of SQLite's numeric coercion of a text: optional white space
around an optionally signed run of decimal digits within the 64-bit range.  SQLite also
coerces a text written as a real number with an integral value (`1.0`, `1e0`), which
goes through floating point; this instance does not interpret such a text and no
evaluation in this file uses one. -/
def sqliteInteger (s : String) : Option Int :=
  let trimmed := ((s.data.dropWhile sqliteIsSpace).reverse.dropWhile sqliteIsSpace).reverse
  let signed : Bool × List Char :=
    match trimmed with
    | '+' :: r => (false, r)
    | '-' :: r => (true, r)
    | r => (false, r)
  if signed.2.isEmpty || !signed.2.all Char.isDigit then none
  else
    let n : Nat := signed.2.foldl (fun acc c => 10 * acc + (c.toNat - 48)) 0
    let v : Int := if signed.1 then -(n : Int) else (n : Int)
    if -(2 : Int) ^ 63 ≤ v ∧ v ≤ (2 : Int) ^ 63 - 1 then some v else none

/-- The fields of a list of characters between occurrences of `sep`. -/
def splitChar (sep : Char) : List Char → List (List Char)
  | [] => [[]]
  | c :: cs =>
    if c = sep then [] :: splitChar sep cs
    else
      match splitChar sep cs with
      | [] => [[c]]
      | w :: ws => (c :: w) :: ws

/-- Whether a DSN of mattn/go-sqlite3 switches foreign-key enforcement on: it does so
through the query parameter `_foreign_keys` (short `_fk`) after the first `?`; a DSN
without a query part, as a bare file name, leaves the engine at its default, off. -/
def dsnForeignKeys (dsn : String) : Bool :=
  let query := (dsn.data.dropWhile (· != '?')).drop 1
  (splitChar '&' query).any fun kv =>
    decide (kv ∈ ["_foreign_keys=1", "_foreign_keys=on", "_foreign_keys=true",
      "_foreign_keys=yes", "_fk=1", "_fk=on", "_fk=true", "_fk=yes"].map String.data)

/-- Number of days of a month in the proleptic Gregorian calendar, as Go `time` has it. -/
def daysIn (month year : Nat) : Nat :=
  if month = 2 then
    if year % 4 = 0 ∧ (year % 100 ≠ 0 ∨ year % 400 = 0) then 29 else 28
  else if month = 4 ∨ month = 6 ∨ month = 9 ∨ month = 11 then 30
  else 31

/-- Value of a run of decimal digits. -/
def digitsValue (cs : List Char) : Nat :=
  cs.foldl (fun acc c => 10 * acc + (c.toNat - 48)) 0

/-- What mattn/go-sqlite3 and `database/sql` make of a `DATETIME` column when it is
scanned into a Go string, for two kinds of text written to it.  A text of the shape
`YYYY-MM-DD` is parsed with the layout `2006-01-02` (the only one of the driver's
timestamp layouts such a text can match) into a `time.Time` in UTC, the zero time when
month or day is out of range, and `Scan` prints it with `time.RFC3339Nano`.  A text
without any digit matches no layout and is no number, so it reads as the zero time.
Any other text (the driver's longer timestamp layouts, numbers read as Unix time) is
not interpreted by this instance, which returns it as it is; no evaluation in this file
uses one. -/
def goDatetime (s : String) : String :=
  if !s.data.any Char.isDigit then "0001-01-01T00:00:00Z"
  else
    match s.data with
    | [y1, y2, y3, y4, '-', m1, m2, '-', d1, d2] =>
      if [y1, y2, y3, y4, m1, m2, d1, d2].all Char.isDigit then
        let year := digitsValue [y1, y2, y3, y4]
        let month := digitsValue [m1, m2]
        let day := digitsValue [d1, d2]
        if 1 ≤ month ∧ month ≤ 12 ∧ 1 ≤ day ∧ day ≤ daysIn month year then
          s ++ "T00:00:00Z"
        else "0001-01-01T00:00:00Z"
      else s
    | _ => s

/-- The engine as `main` opens it: `sql.Open("sqlite3", dbPath)`, and no statement of
the program changes a connection setting afterwards. -/
def mainEngine : Engine :=
  { foreignKeys := dsnForeignKeys dbPath, numeric := sqliteInteger,
    scanDatetime := goDatetime }

/-! ## Well-formed databases -/

/-- The keys of the `tasks` rows. -/
def DB.taskIds (db : DB) : List Int :=
  db.tasks.map (·.id)

/-- The keys of the `participants` rows. -/
def DB.participantIds (db : DB) : List Int :=
  db.participants.map (·.id)

/-- What the schema and the handlers maintain whatever the engine settings: the three
primary keys are unique, no key exceeds the AUTOINCREMENT counter of its table, and
every association row carries the key of a task row. -/
def DB.WF (db : DB) : Prop :=
  db.taskIds.Nodup ∧ db.participantIds.Nodup ∧ db.task_participants.Nodup ∧
  0 ≤ db.tasks_seq ∧ 0 ≤ db.participants_seq ∧
  (∀ r ∈ db.tasks, 0 < r.id ∧ r.id ≤ db.tasks_seq) ∧
  (∀ r ∈ db.participants, 0 < r.id ∧ r.id ≤ db.participants_seq) ∧
  (∀ tp ∈ db.task_participants, tp.task_id ∈ db.taskIds)

instance (db : DB) : Decidable db.WF := by
  unfold DB.WF
  infer_instance

/-- Referential integrity of the association relation: every row references an
existing task and an existing participant. -/
def DB.RefIntegrity (db : DB) : Prop :=
  ∀ tp ∈ db.task_participants,
    tp.task_id ∈ db.taskIds ∧ tp.participant_id ∈ db.participantIds

instance (db : DB) : Decidable db.RefIntegrity := by
  unfold DB.RefIntegrity
  infer_instance

/-- What holds of the store under engine `e` after any sequence of requests: it is
well formed, and with foreign-key enforcement on every association row references an
existing participant as well. -/
def Inv (e : Engine) (db : DB) : Prop :=
  db.WF ∧ (e.foreignKeys = true → db.RefIntegrity)

/-- The participants the join returns for the task with integer key `k`: what
`selectParticipants` computes once its parameter is coerced to `k`. -/
def joinParticipants (db : DB) (k : Int) : List Participant :=
  ((db.task_participants.filter fun tp => tp.task_id == k).map fun tp =>
    (db.participants.filter fun p => p.id == tp.participant_id).map fun p =>
      { ID := p.id, Name := p.name : Participant }).flatten

/-! ## Stores used to evaluate the handlers -/

/-- A store built through the handlers that holds the single participant 12: twelve
participants are created and the first eleven deleted again. -/
def storeWithParticipant12 : DB :=
  run mainEngine initDB
    (List.replicate 12 (.createParticipant (some ⟨0, "ann"⟩)) ++
      ["1", "2", "3", "4", "5", "6", "7", "8", "9", "10", "11"].map .deleteParticipant)

/-- The task of the round-trip property: no participants. -/
def specTask : Task :=
  { ID := 0, Priority := "high", Task := "write spec", StartDate := "2024-01-01",
    EndDate := "2024-01-02", Status := "open", Participants := [] }

/-- A store built through the handlers: participants 1 (ann), 2 (bob) and 3 (cy), task 1
with participants 1 and 2, task 2 with participant 1. -/
def sampleStore : DB :=
  run mainEngine initDB
    [.createParticipant (some ⟨0, "ann"⟩), .createParticipant (some ⟨0, "bob"⟩),
     .createParticipant (some ⟨0, "cy"⟩),
     .createTask (some { specTask with Participants := [⟨1, ""⟩, ⟨2, ""⟩] }),
     .createTask (some { specTask with Task := "review", Participants := [⟨1, ""⟩] })]

/-! ## Parameters and keys -/

theorem eqParam_eq {e : Engine} {v : Value} {k : Int} (h : e.asInt v = some k) (col : Int) :
    e.eqParam col v = (col == k) := by
  unfold Engine.eqParam
  rw [h]
  by_cases hc : col = k
  · subst hc; simp
  · have hc2 : ¬ k = col := fun h2 => hc h2.symm
    simp [hc, hc2]

theorem eqParam_none {e : Engine} {v : Value} (h : e.asInt v = none) (col : Int) :
    e.eqParam col v = false := by
  unfold Engine.eqParam
  rw [h]
  rfl

theorem eqParam_no_match {e : Engine} {db : DB} {id : String}
    (h : ∀ k, e.numeric id = some k → k ∉ db.taskIds) :
    ∀ r ∈ db.tasks, e.eqParam r.id (.text id) = false := by
  intro r hr
  cases hn : e.numeric id with
  | none => exact eqParam_none (by simpa [Engine.asInt] using hn) _
  | some k =>
    have hk : e.asInt (.text id) = some k := by simpa [Engine.asInt] using hn
    rw [eqParam_eq hk]
    have : r.id ≠ k := by
      intro hrk
      exact h k hn (by rw [← hrk]; exact List.mem_map_of_mem _ hr)
    simpa using this

theorem selectTask_no_match {e : Engine} {db : DB} {id : String}
    (h : ∀ k, e.numeric id = some k → k ∉ db.taskIds) :
    selectTask e db (.text id) = [] := by
  unfold selectTask
  rw [List.filter_eq_nil_iff]
  intro r hr
  simp [eqParam_no_match h r hr]

/-! ## Error classification -/

/-- C5 (as the code behaves): `getTaskHandler` answers 400 (InvalidInput) exactly for the
empty id; for a non-empty id that matches no task row, numeric or not, it answers 404
(NotFound); the store is unchanged in both cases. -/
theorem getTask_error_classification (e : Engine) (db : DB) (id : String)
    (h : id = "" ∨ ∀ k, e.numeric id = some k → k ∉ db.taskIds) :
    (getTaskHandler e db id).1 = db ∧
    (getTaskHandler e db id).2.status =
      if id = "" then StatusBadRequest else StatusNotFound := by
  unfold getTaskHandler
  by_cases hid : id = ""
  · simp [hid, httpError]
  · rcases h with h | h
    · exact absurd h hid
    · simp [hid, selectTask_no_match h, httpError]

/-- C5 on the empty store: the empty id and the id `7`. -/
theorem getTask_error_classification_witness :
    ((getTaskHandler mainEngine initDB "").1 = initDB ∧
      (getTaskHandler mainEngine initDB "").2.status =
        if "" = "" then StatusBadRequest else StatusNotFound) ∧
    ((getTaskHandler mainEngine initDB "7").1 = initDB ∧
      (getTaskHandler mainEngine initDB "7").2.status =
        if "7" = "" then StatusBadRequest else StatusNotFound) :=
  ⟨getTask_error_classification mainEngine initDB "" (Or.inl rfl),
   getTask_error_classification mainEngine initDB "7"
     (Or.inr (fun k _ hk => by simp [DB.taskIds, initDB] at hk))⟩

/-- C5 (as stated) fails: the non-numeric id `abc` is answered with 404 (NotFound),
not with 400 (InvalidInput). -/
theorem getTask_nonnumeric_is_not_found :
    Sscanf "abc" = none ∧ mainEngine.numeric "abc" = none ∧
    (getTaskHandler mainEngine initDB "abc").2.status = StatusNotFound ∧
    (getTaskHandler mainEngine initDB "abc").2.status ≠ StatusBadRequest := by
  decide

/-- C6 (as the code behaves): for an id that matches no task row and any submitted
task, `updateTaskHandler` returns the store as it was: tasks, participants and
association rows are untouched; it answers 404 (NotFound) when the id is non-empty and
400 (InvalidInput) when the id is empty. -/
theorem updateTask_no_match (e : Engine) (db : DB) (id : String) (task : Task)
    (h : ∀ k, e.numeric id = some k → k ∉ db.taskIds) :
    (updateTaskHandler e db id (some task)).1 = db ∧
    (updateTaskHandler e db id (some task)).2.status =
      if id = "" then StatusBadRequest else StatusNotFound := by
  by_cases hid : id = ""
  · unfold updateTaskHandler
    simp [hid, httpError]
  · have hno := eqParam_no_match h
    have hfilter : (db.tasks.filter fun r => e.eqParam r.id (.text id)) = [] := by
      rw [List.filter_eq_nil_iff]
      intro r hr
      simp [hno r hr]
    have hmap : (db.tasks.map fun r =>
        if e.eqParam r.id (.text id) then
          { r with priority := task.Priority, task := task.Task,
                   start_date := task.StartDate, end_date := task.EndDate,
                   status := task.Status }
        else r) = db.tasks := by
      conv_rhs => rw [← List.map_id db.tasks]
      apply List.map_congr_left
      intro r hr
      simp [hno r hr]
    unfold updateTaskHandler updateTask
    simp only [hid, if_false, hfilter, hmap, List.length_nil, if_true]
    exact ⟨trivial, rfl⟩

/-- C6 on the sample store, whose tasks are 1 and 2: updating id `7`, which names no
task, with a participant list. -/
theorem updateTask_no_match_witness :
    (∀ k, mainEngine.numeric "7" = some k → k ∉ sampleStore.taskIds) ∧
    (updateTaskHandler mainEngine sampleStore "7"
        (some { specTask with Participants := [⟨3, "cy"⟩] })).1 = sampleStore ∧
    (updateTaskHandler mainEngine sampleStore "7"
        (some { specTask with Participants := [⟨3, "cy"⟩] })).2.status
      = if "7" = "" then StatusBadRequest else StatusNotFound :=
  have h7 : ∀ k, mainEngine.numeric "7" = some k → k ∉ sampleStore.taskIds := by
    intro k hk hmem
    have hk7 : mainEngine.numeric "7" = some 7 := by decide
    rw [hk7] at hk
    have h0 : sampleStore.taskIds = [1, 2] := by decide
    rw [h0] at hmem
    injection hk with hk
    subst hk
    exact absurd hmem (by decide)
  ⟨h7, updateTask_no_match mainEngine sampleStore "7"
    { specTask with Participants := [⟨3, "cy"⟩] } h7⟩

/-- C6 (as stated) fails: the empty id, which `PUT /api/task` hands to
`updateTaskHandler`, matches no task row of the sample store, and the handler answers
400 (InvalidInput), not 404 (NotFound). -/
theorem updateTask_empty_id_is_invalid_input :
    mainEngine.numeric "" = none ∧
    selectTask mainEngine sampleStore (.text "") = [] ∧
    (updateTaskHandler mainEngine sampleStore "" (some specTask)).2.status
      = StatusBadRequest ∧
    (updateTaskHandler mainEngine sampleStore "" (some specTask)).2.status
      ≠ StatusNotFound := by
  decide

/-- The "Invalid ID" path of `deleteParticipantHandler`: when `Sscanf(id, "%d", ...)`
reports an error, the handler answers 400 (InvalidInput) and returns the store as it
was. -/
theorem deleteParticipant_invalid_id (e : Engine) (db : DB) (id : String)
    (h : Sscanf id = none) :
    (deleteParticipantHandler e db id).1 = db ∧
    (deleteParticipantHandler e db id).2.status = StatusBadRequest := by
  unfold deleteParticipantHandler
  rw [h]
  exact ⟨rfl, rfl⟩

/-- The "Invalid ID" path for the id `abc`. -/
theorem deleteParticipant_invalid_id_witness :
    (deleteParticipantHandler mainEngine storeWithParticipant12 "abc").1
      = storeWithParticipant12 ∧
    (deleteParticipantHandler mainEngine storeWithParticipant12 "abc").2.status
      = StatusBadRequest :=
  deleteParticipant_invalid_id mainEngine storeWithParticipant12 "abc" (by decide)

/-- C7 fails on the program: `12abc` is not a decimal number, yet
`Sscanf(id, "%d", ...)` reads the leading `12` and reports no error, so the handler's
check of the id lets it through: it answers 200 and deletes the row of participant 12
instead of answering 400 and leaving the store alone. -/
theorem deleteParticipant_numeric_head_accepted :
    storeWithParticipant12.WF ∧
    storeWithParticipant12.participantIds = [12] ∧
    Sscanf "12abc" = some 12 ∧
    (deleteParticipantHandler mainEngine storeWithParticipant12 "12abc").2.status = StatusOK ∧
    (deleteParticipantHandler mainEngine storeWithParticipant12 "12abc").2.status
      ≠ StatusBadRequest ∧
    (deleteParticipantHandler mainEngine storeWithParticipant12 "12abc").1.participants = [] := by
  decide

/-! ## Deleting a task -/

theorem mem_taskIds_filter {db : DB} {k : Int} (h : k ∈ db.taskIds) :
    (db.tasks.filter fun r => r.id == k) ≠ [] := by
  obtain ⟨r, hr, hrk⟩ := List.mem_map.mp h
  intro hnil
  have : r ∈ db.tasks.filter fun r => r.id == k := by
    rw [List.mem_filter]
    exact ⟨hr, by simp [hrk]⟩
  rw [hnil] at this
  exact List.not_mem_nil _ this

/-- C4: for the id of an existing task, `deleteTaskHandler` answers 204; afterwards no
association row carries that task id and `getTaskHandler` on the id answers 404
(NotFound); the other task rows, all participant rows and the association rows of the
other tasks are what they were. -/
theorem deleteTask_removes_task (e : Engine) (db : DB) (id : String) (k : Int)
    (hid : id ≠ "") (hk : e.numeric id = some k) (hmem : k ∈ db.taskIds) :
    (deleteTaskHandler e db id).2.status = StatusNoContent ∧
    (∀ tp ∈ (deleteTaskHandler e db id).1.task_participants, tp.task_id ≠ k) ∧
    (getTaskHandler e (deleteTaskHandler e db id).1 id).2.status = StatusNotFound ∧
    (deleteTaskHandler e db id).1.tasks = db.tasks.filter (fun r => r.id != k) ∧
    (deleteTaskHandler e db id).1.participants = db.participants ∧
    (deleteTaskHandler e db id).1.task_participants
      = db.task_participants.filter (fun tp => tp.task_id != k) := by
  have hv : e.asInt (.text id) = some k := by simpa [Engine.asInt] using hk
  have hne := mem_taskIds_filter hmem
  have hlen : (db.tasks.filter fun r => r.id == k).length ≠ 0 := by
    intro h0
    exact hne (List.length_eq_zero.mp h0)
  have hfst : (deleteTaskHandler e db id).1
      = (deleteTask e (deleteTaskParticipants e db (.text id)) (.text id)).1 := by
    unfold deleteTaskHandler
    simp only [hid, if_false]
    split <;> rfl
  have htasks : (deleteTaskHandler e db id).1.tasks = db.tasks.filter (fun r => r.id != k) := by
    rw [hfst]
    unfold deleteTask deleteTaskParticipants
    simp only [eqParam_eq hv]
    rfl
  have hparts : (deleteTaskHandler e db id).1.participants = db.participants := by
    rw [hfst]
    rfl
  have hin : ∀ a : Int, a ≠ k →
      a ∉ (db.tasks.filter fun r => r.id == k).map (fun r => r.id) := by
    intro a hak hmem2
    obtain ⟨r, hr, hra⟩ := List.mem_map.mp hmem2
    have hrk : r.id = k := by simpa using (List.mem_filter.mp hr).2
    exact hak (hra ▸ hrk)
  have htp : (deleteTaskHandler e db id).1.task_participants
      = db.task_participants.filter (fun tp => tp.task_id != k) := by
    rw [hfst]
    unfold deleteTask deleteTaskParticipants
    simp only [eqParam_eq hv]
    cases e.foreignKeys with
    | false => rfl
    | true =>
      show List.filter _ (List.filter (fun tp => tp.task_id != k) db.task_participants) = _
      rw [List.filter_eq_self]
      intro tp htp2
      have hne2 : tp.task_id ≠ k := by simpa using (List.mem_filter.mp htp2).2
      simpa using hin _ hne2
  have hst : (deleteTaskHandler e db id).2.status = StatusNoContent := by
    unfold deleteTaskHandler deleteTask deleteTaskParticipants
    simp only [hid, if_false, eqParam_eq hv]
    simp [hlen]
  refine ⟨hst, ?_, ?_, htasks, hparts, htp⟩
  · rw [htp]
    intro tp htp2
    simp only [List.mem_filter] at htp2
    simpa using htp2.2
  · unfold getTaskHandler selectTask
    simp only [hid, if_false, eqParam_eq hv, htasks, List.filter_filter]
    have : (db.tasks.filter fun r => (r.id == k) && (r.id != k)) = [] := by
      rw [List.filter_eq_nil_iff]
      intro r _
      by_cases hr : r.id = k <;> simp [hr]
    rw [this]
    rfl

/-- C4 on a store whose task 1 has participant 12: deleting id `1`. -/
theorem deleteTask_removes_task_witness :
    (deleteTaskHandler mainEngine
      (addTaskHandler mainEngine storeWithParticipant12
        (some { specTask with Participants := [⟨12, "ann"⟩] })).1 "1").2.status
      = StatusNoContent :=
  (deleteTask_removes_task mainEngine
    (addTaskHandler mainEngine storeWithParticipant12
      (some { specTask with Participants := [⟨12, "ann"⟩] })).1 "1" 1
    (by decide) (by decide) (by decide)).1

/-! ## Creating a task -/

theorem foldl_max_ge (ids : List Int) :
    ∀ seq : Int, seq ≤ ids.foldl max seq ∧ ∀ x ∈ ids, x ≤ ids.foldl max seq := by
  induction ids with
  | nil => intro seq; simp
  | cons a as ih =>
    intro seq
    obtain ⟨h1, h2⟩ := ih (max seq a)
    refine ⟨le_trans (le_max_left _ _) h1, ?_⟩
    intro x hx
    rcases List.mem_cons.mp hx with rfl | hx
    · exact le_trans (le_max_right _ _) h1
    · exact h2 x hx

theorem nextRowid_gt_seq (seq : Int) (ids : List Int) : seq < nextRowid seq ids := by
  have := (foldl_max_ge ids seq).1
  unfold nextRowid
  omega

theorem nextRowid_gt_mem (seq : Int) (ids : List Int) {x : Int} (hx : x ∈ ids) :
    x < nextRowid seq ids := by
  have := (foldl_max_ge ids seq).2 x hx
  unfold nextRowid
  omega

theorem nextRowid_not_mem (seq : Int) (ids : List Int) : nextRowid seq ids ∉ ids := by
  intro h
  have := nextRowid_gt_mem seq ids h
  omega

theorem selectParticipants_eq {e : Engine} {v : Value} {k : Int} (hv : e.asInt v = some k)
    (db : DB) :
    selectParticipants e db v =
      ((db.task_participants.filter fun tp => tp.task_id == k).map fun tp =>
        (db.participants.filter fun p => p.id == tp.participant_id).map fun p =>
          { ID := p.id, Name := p.name : Participant }).flatten := by
  unfold selectParticipants
  simp only [eqParam_eq hv]

theorem selectTask_eq {e : Engine} {v : Value} {k : Int} (hv : e.asInt v = some k)
    (db : DB) : selectTask e db v = db.tasks.filter fun r => r.id == k := by
  unfold selectTask
  simp only [eqParam_eq hv]

theorem filter_task_id_nil {db : DB} {k : Int} (hwf : db.WF) (hk : k ∉ db.taskIds) :
    (db.task_participants.filter fun tp => tp.task_id == k) = [] := by
  rw [List.filter_eq_nil_iff]
  intro tp htp
  have := hwf.2.2.2.2.2.2.2 tp htp
  have hne : tp.task_id ≠ k := fun h => hk (h ▸ this)
  simpa using hne

theorem filter_tasks_append_new {db : DB} {k : Int} (hk : k ∉ db.taskIds) (r : TaskRow)
    (hr : r.id = k) : ((db.tasks ++ [r]).filter fun x => x.id == k) = [r] := by
  rw [List.filter_append]
  have h1 : (db.tasks.filter fun x => x.id == k) = [] := by
    rw [List.filter_eq_nil_iff]
    intro x hx
    have hne : x.id ≠ k := fun h => hk (h ▸ List.mem_map_of_mem _ hx)
    simpa using hne
  rw [h1]
  simp [List.filter, hr]

/-- C3 (as the code behaves): on a well-formed store, `addTaskHandler` with an empty
participant list answers 200 with the task under a new id; that id is positive, is the
key of no task row of the store, and exceeds the AUTOINCREMENT counter, hence every id
assigned before (the counter becomes the new id and no request lowers it); and
`getTaskHandler` on that id returns the submitted priority, task and status with no
participants, and as start and end date what scanning the `DATETIME` columns yields for
the submitted dates. -/
theorem createTask_roundtrip (e : Engine) (db : DB) (task : Task) (id : String)
    (hwf : db.WF) (hp : task.Participants = []) (hid : id ≠ "")
    (hnum : e.numeric id = some (nextRowid db.tasks_seq db.taskIds)) :
    (addTaskHandler e db (some task)).2
      = { status := StatusOK,
          payload := .task { task with ID := nextRowid db.tasks_seq db.taskIds } } ∧
    0 < nextRowid db.tasks_seq db.taskIds ∧
    nextRowid db.tasks_seq db.taskIds ∉ db.taskIds ∧
    db.tasks_seq < nextRowid db.tasks_seq db.taskIds ∧
    (addTaskHandler e db (some task)).1.tasks_seq = nextRowid db.tasks_seq db.taskIds ∧
    getTaskHandler e (addTaskHandler e db (some task)).1 id
      = ((addTaskHandler e db (some task)).1,
         { status := StatusOK,
           payload := .task { task with ID := nextRowid db.tasks_seq db.taskIds,
                                        StartDate := e.scanDatetime task.StartDate,
                                        EndDate := e.scanDatetime task.EndDate,
                                        Participants := [] } }) := by
  have hv : e.asInt (.text id) = some (nextRowid db.tasks_seq db.taskIds) := by
    simpa [Engine.asInt] using hnum
  have hfresh := nextRowid_not_mem db.tasks_seq db.taskIds
  have hgt := nextRowid_gt_seq db.tasks_seq db.taskIds
  have hadd : addTaskHandler e db (some task) =
      ((insertTask db task.Priority task.Task task.StartDate task.EndDate task.Status).1,
       { status := StatusOK,
         payload := .task { task with ID := nextRowid db.tasks_seq db.taskIds } }) := by
    unfold addTaskHandler
    simp only [hp, insertParticipants]
    rfl
  refine ⟨by rw [hadd], by have := hwf.2.2.2.1; omega, hfresh, hgt, by rw [hadd]; rfl, ?_⟩
  rw [hadd]
  unfold getTaskHandler
  simp only [hid, if_false, selectTask_eq hv, selectParticipants_eq hv]
  have htp : ((insertTask db task.Priority task.Task task.StartDate task.EndDate
      task.Status).1.task_participants.filter
        fun tp => tp.task_id == nextRowid db.tasks_seq db.taskIds) = [] :=
    @filter_task_id_nil db _ hwf hfresh
  have hts : ((insertTask db task.Priority task.Task task.StartDate task.EndDate
      task.Status).1.tasks.filter fun r => r.id == nextRowid db.tasks_seq db.taskIds)
      = [{ id := nextRowid db.tasks_seq db.taskIds, priority := task.Priority,
           task := task.Task, start_date := task.StartDate, end_date := task.EndDate,
           status := task.Status }] :=
    @filter_tasks_append_new db _ hfresh _ rfl
  rw [htp, hts]
  rfl

/-- C3 on the sample store: the task of the round-trip property is created under id 3. -/
theorem createTask_roundtrip_witness :
    sampleStore.WF ∧
    getTaskHandler mainEngine (addTaskHandler mainEngine sampleStore (some specTask)).1 "3"
      = ((addTaskHandler mainEngine sampleStore (some specTask)).1,
         { status := StatusOK,
           payload := .task { specTask with ID := 3, StartDate := "2024-01-01T00:00:00Z",
                                            EndDate := "2024-01-02T00:00:00Z" } }) :=
  ⟨by decide,
   (createTask_roundtrip mainEngine sampleStore specTask "3" (by decide) rfl (by decide)
      (by decide)).2.2.2.2.2⟩

/-- C3 (as stated) fails: the task of the round-trip property is created under id 1,
and fetching id 1 returns its dates as `2024-01-01T00:00:00Z` and
`2024-01-02T00:00:00Z`, not as the submitted `2024-01-01` and `2024-01-02`. -/
theorem createTask_dates_come_back_rendered :
    (addTaskHandler mainEngine initDB (some specTask)).2
      = { status := StatusOK, payload := .task { specTask with ID := 1 } } ∧
    (getTaskHandler mainEngine (addTaskHandler mainEngine initDB (some specTask)).1 "1").2
      = { status := StatusOK,
          payload := .task { specTask with ID := 1, StartDate := "2024-01-01T00:00:00Z",
                                           EndDate := "2024-01-02T00:00:00Z" } } ∧
    (getTaskHandler mainEngine (addTaskHandler mainEngine initDB (some specTask)).1 "1").2
      ≠ { status := StatusOK, payload := .task { specTask with ID := 1 } } := by
  decide

/-! ## Association rows written by the insert loop -/

/-- The association rows the insert loop writes for task `k`. -/
theorem insertParticipants_ok {e : Engine} {v : Value} {k : Int} (hv : e.asInt v = some k) :
    ∀ (ps : List Participant) (db : DB),
      (ps.map (·.ID)).Nodup →
      (∀ p ∈ ps, ({ task_id := k, participant_id := p.ID } : TaskParticipantRow)
        ∉ db.task_participants) →
      (e.foreignKeys = true → k ∈ db.taskIds ∧ ∀ p ∈ ps, p.ID ∈ db.participantIds) →
      insertParticipants e v db ps =
        ({ db with
            task_participants := db.task_participants ++
              ps.map (fun p => { task_id := k, participant_id := p.ID }) }, true) := by
  intro ps
  induction ps with
  | nil => intro db _ _ _; simp [insertParticipants]
  | cons p rest ih =>
    intro db hnd hnew hfk
    have hp : ({ task_id := k, participant_id := p.ID } : TaskParticipantRow)
        ∉ db.task_participants := hnew p (List.mem_cons_self _ _)
    have hstep : insertTaskParticipant e db v (.integer p.ID) =
        .ok { db with task_participants :=
                db.task_participants ++ [{ task_id := k, participant_id := p.ID }] } := by
      have hpi : e.asInt (.integer p.ID) = some p.ID := rfl
      unfold insertTaskParticipant
      rw [hv, hpi]
      simp only [hp, if_false]
      cases hfke : e.foreignKeys with
      | false => simp
      | true =>
        obtain ⟨h1, h2⟩ := hfk hfke
        have h1' : k ∈ List.map (fun x => x.id) db.tasks := h1
        have h2' : p.ID ∈ List.map (fun x => x.id) db.participants :=
          h2 p (List.mem_cons_self _ _)
        simp [h1', h2']
    rw [insertParticipants, hstep]
    simp only []
    rw [List.map_cons, List.nodup_cons] at hnd
    rw [ih _ hnd.2]
    · simp
    · intro q hq hmem
      simp only [List.mem_append, List.mem_singleton] at hmem
      rcases hmem with hmem | hmem
      · exact hnew q (List.mem_cons_of_mem _ hq) hmem
      · have hqp : q.ID = p.ID := by
          have := congrArg TaskParticipantRow.participant_id hmem
          simpa using this
        exact hnd.1 (hqp ▸ List.mem_map_of_mem _ hq)
    · intro hfke
      obtain ⟨h1, h2⟩ := hfk hfke
      exact ⟨h1, fun q hq => h2 q (List.mem_cons_of_mem _ hq)⟩

theorem filter_key_eq_singleton {α : Type} (f : α → Int) :
    ∀ (l : List α), (l.map f).Nodup → ∀ a ∈ l, (l.filter fun x => f x == f a) = [a] := by
  intro l
  induction l with
  | nil => intro _ a ha; exact absurd ha (List.not_mem_nil _)
  | cons b bs ih =>
    intro hnd a ha
    rw [List.map_cons, List.nodup_cons] at hnd
    rcases List.mem_cons.mp ha with rfl | ha
    · have : (bs.filter fun x => f x == f a) = [] := by
        rw [List.filter_eq_nil_iff]
        intro x hx
        have hne : f x ≠ f a := fun h => hnd.1 (h ▸ List.mem_map_of_mem _ hx)
        simpa using hne
      simp [List.filter, this]
    · have hne : f b ≠ f a := fun h => hnd.1 (h ▸ List.mem_map_of_mem _ ha)
      have hb : (f b == f a) = false := by simpa using hne
      rw [List.filter_cons, hb]
      simpa using ih hnd.2 a ha

/-- The participants joined to a list of association rows whose participants all
exist: one per row, in the order of the rows. -/
theorem join_ids {db : DB} (hnd : db.participantIds.Nodup) :
    ∀ (rows : List TaskParticipantRow),
      (∀ tp ∈ rows, tp.participant_id ∈ db.participantIds) →
      ((rows.map fun tp =>
        (db.participants.filter fun p => p.id == tp.participant_id).map fun p =>
          { ID := p.id, Name := p.name : Participant }).flatten).map (·.ID)
        = rows.map (·.participant_id) := by
  intro rows
  induction rows with
  | nil => intro _; rfl
  | cons tp rest ih =>
    intro h
    obtain ⟨r, hr, hrid⟩ := List.mem_map.mp (h tp (List.mem_cons_self _ _))
    have hone := filter_key_eq_singleton (fun p : ParticipantRow => p.id) db.participants hnd r hr
    simp only [hrid] at hone
    simp only [List.map_cons, List.flatten_cons, List.map_append, hone, List.map_singleton,
      List.singleton_append]
    rw [ih fun tp2 h2 => h tp2 (List.mem_cons_of_mem _ h2)]
    simp [hrid]

theorem filter_append_rows {k : Int} (l : List TaskParticipantRow) (ps : List Participant)
    (hl : (l.filter fun tp => tp.task_id == k) = []) :
    ((l ++ ps.map fun p => ({ task_id := k, participant_id := p.ID } : TaskParticipantRow)).filter
      fun tp => tp.task_id == k)
      = ps.map fun p => { task_id := k, participant_id := p.ID } := by
  rw [List.filter_append, hl, List.nil_append, List.filter_eq_self]
  intro tp htp
  obtain ⟨p, _, rfl⟩ := List.mem_map.mp htp
  simp

theorem getTaskHandler_found {e : Engine} {db : DB} {id : String} {k : Int} {r : TaskRow}
    (hid : id ≠ "") (hnum : e.numeric id = some k)
    (hrow : (db.tasks.filter fun x => x.id == k) = [r]) :
    getTaskHandler e db id
      = (db, { status := StatusOK, payload := .task (scanTask e r (joinParticipants db k)) }) := by
  have hv : e.asInt (.text id) = some k := by simpa [Engine.asInt] using hnum
  unfold getTaskHandler
  simp only [hid, if_false, selectTask_eq hv, selectParticipants_eq hv, hrow]
  rfl

theorem joinParticipants_ids {db : DB} {k : Int} (hnd : db.participantIds.Nodup)
    (ps : List Participant)
    (hrows : (db.task_participants.filter fun tp => tp.task_id == k)
      = ps.map fun p => { task_id := k, participant_id := p.ID })
    (hex : ∀ p ∈ ps, p.ID ∈ db.participantIds) :
    (joinParticipants db k).map (·.ID) = ps.map (·.ID) := by
  unfold joinParticipants
  rw [hrows, join_ids hnd]
  · simp [List.map_map, Function.comp_def]
  · intro tp htp
    obtain ⟨p, hp, rfl⟩ := List.mem_map.mp htp
    exact hex p hp

theorem mem_joinParticipants {db : DB} {k : Int} {q : Participant}
    (hq : q ∈ joinParticipants db k) :
    ({ id := q.ID, name := q.Name } : ParticipantRow) ∈ db.participants := by
  unfold joinParticipants at hq
  simp only [List.mem_flatten, List.mem_map, List.mem_filter] at hq
  obtain ⟨l, ⟨tp, _, rfl⟩, hq⟩ := hq
  simp only [List.mem_map, List.mem_filter] at hq
  obtain ⟨p, ⟨hp, _⟩, rfl⟩ := hq
  exact hp

/-- The result of `addTaskHandler` when the submitted participant ids are distinct ids
of participant rows. -/
theorem addTaskHandler_ok (e : Engine) (db : DB) (task : Task) (hwf : db.WF)
    (hnd : (task.Participants.map (·.ID)).Nodup)
    (hex : ∀ p ∈ task.Participants, p.ID ∈ db.participantIds) :
    addTaskHandler e db (some task) =
      ({ db with
          tasks := db.tasks ++ [{ id := nextRowid db.tasks_seq db.taskIds,
                                  priority := task.Priority, task := task.Task,
                                  start_date := task.StartDate, end_date := task.EndDate,
                                  status := task.Status }],
          tasks_seq := nextRowid db.tasks_seq db.taskIds,
          task_participants := db.task_participants ++
            task.Participants.map (fun p =>
              { task_id := nextRowid db.tasks_seq db.taskIds, participant_id := p.ID }) },
       { status := StatusOK,
         payload := .task { task with ID := nextRowid db.tasks_seq db.taskIds } }) := by
  have hfresh := nextRowid_not_mem db.tasks_seq db.taskIds
  have hv : e.asInt (.integer (nextRowid db.tasks_seq db.taskIds))
      = some (nextRowid db.tasks_seq db.taskIds) := rfl
  have hloop := insertParticipants_ok hv task.Participants
    (insertTask db task.Priority task.Task task.StartDate task.EndDate task.Status).1 hnd
    (by
      intro p _ hmem
      have := hwf.2.2.2.2.2.2.2 _ hmem
      exact hfresh this)
    (by
      intro _
      refine ⟨?_, hex⟩
      show _ ∈ List.map (fun x => x.id) (db.tasks ++ [_])
      simp only [List.map_append, List.mem_append, List.map_cons, List.map_nil,
        List.mem_singleton]
      exact Or.inr rfl)
  unfold addTaskHandler
  simp only []
  have hid : (insertTask db task.Priority task.Task task.StartDate task.EndDate task.Status).2
      = nextRowid db.tasks_seq db.taskIds := rfl
  rw [hid, hloop]
  rfl

theorem filter_task_unique {db : DB} {k : Int} (hnd : db.taskIds.Nodup) (hk : k ∈ db.taskIds) :
    ∃ r, r ∈ db.tasks ∧ r.id = k ∧ (db.tasks.filter fun x => x.id == k) = [r] := by
  obtain ⟨r, hr, hrk⟩ := List.mem_map.mp hk
  have := filter_key_eq_singleton (fun x : TaskRow => x.id) db.tasks hnd r hr
  simp only [hrk] at this
  exact ⟨r, hr, hrk, this⟩

/-- C2: on a well-formed store with two distinct participant rows `r1` and `r2`,
`addTaskHandler` with the participant ids `[r1.id, r2.id]` answers 200 under a new id,
and `getTaskHandler` on that id returns a task whose participants are, up to order,
exactly `r1` and `r2` with their stored names. -/
theorem createTask_two_participants (e : Engine) (db : DB) (task : Task)
    (r1 r2 : ParticipantRow) (n1 n2 : String) (id : String)
    (hwf : db.WF) (h1 : r1 ∈ db.participants) (h2 : r2 ∈ db.participants)
    (hne : r1.id ≠ r2.id)
    (hp : task.Participants = [{ ID := r1.id, Name := n1 }, { ID := r2.id, Name := n2 }])
    (hid : id ≠ "") (hnum : e.numeric id = some (nextRowid db.tasks_seq db.taskIds)) :
    (addTaskHandler e db (some task)).2
      = { status := StatusOK,
          payload := .task { task with ID := nextRowid db.tasks_seq db.taskIds } } ∧
    ∃ t : Task,
      getTaskHandler e (addTaskHandler e db (some task)).1 id
        = ((addTaskHandler e db (some task)).1, { status := StatusOK, payload := .task t }) ∧
      t.ID = nextRowid db.tasks_seq db.taskIds ∧
      t.Participants.Perm
        [{ ID := r1.id, Name := r1.name }, { ID := r2.id, Name := r2.name }] := by
  have hfresh := nextRowid_not_mem db.tasks_seq db.taskIds
  have hnd : (task.Participants.map (·.ID)).Nodup := by
    rw [hp]
    simp [hne]
  have hex : ∀ p ∈ task.Participants, p.ID ∈ db.participantIds := by
    intro p hpm
    rw [hp] at hpm
    simp only [List.mem_cons, List.mem_singleton, List.not_mem_nil, or_false] at hpm
    rcases hpm with rfl | rfl
    · exact List.mem_map_of_mem _ h1
    · exact List.mem_map_of_mem _ h2
  rw [addTaskHandler_ok e db task hwf hnd hex]
  refine ⟨rfl, _, getTaskHandler_found hid hnum
    (@filter_tasks_append_new db _ hfresh _ rfl), rfl, ?_⟩
  have hrows := filter_append_rows db.task_participants task.Participants
    (@filter_task_id_nil db _ hwf hfresh)
  have hf1 : (db.participants.filter fun p => p.id == r1.id) = [r1] :=
    filter_key_eq_singleton (fun p : ParticipantRow => p.id) db.participants hwf.2.1 r1 h1
  have hf2 : (db.participants.filter fun p => p.id == r2.id) = [r2] :=
    filter_key_eq_singleton (fun p : ParticipantRow => p.id) db.participants hwf.2.1 r2 h2
  have : joinParticipants
      { db with
          tasks := db.tasks ++ [{ id := nextRowid db.tasks_seq db.taskIds,
                                  priority := task.Priority, task := task.Task,
                                  start_date := task.StartDate, end_date := task.EndDate,
                                  status := task.Status }],
          tasks_seq := nextRowid db.tasks_seq db.taskIds,
          task_participants := db.task_participants ++
            task.Participants.map (fun p =>
              { task_id := nextRowid db.tasks_seq db.taskIds, participant_id := p.ID }) }
      (nextRowid db.tasks_seq db.taskIds)
      = [{ ID := r1.id, Name := r1.name }, { ID := r2.id, Name := r2.name }] := by
    unfold joinParticipants
    simp only []
    rw [hrows]
    simp only [hp, List.map_cons, List.map_nil, hf1, hf2, List.flatten_cons,
      List.flatten_nil, List.singleton_append, List.append_nil]
  show (joinParticipants _ _).Perm _
  rw [this]

/-- C2 on the sample store: a task created with participants 3 and 1. -/
theorem createTask_two_participants_witness :
    sampleStore.WF ∧
    ∃ t : Task,
      getTaskHandler mainEngine (addTaskHandler mainEngine sampleStore
          (some { specTask with Participants := [⟨3, ""⟩, ⟨1, ""⟩] })).1 "3"
        = ((addTaskHandler mainEngine sampleStore
              (some { specTask with Participants := [⟨3, ""⟩, ⟨1, ""⟩] })).1,
           { status := StatusOK, payload := .task t }) ∧
      t.ID = 3 ∧ t.Participants.Perm [⟨3, "cy"⟩, ⟨1, "ann"⟩] :=
  ⟨by decide,
   (createTask_two_participants mainEngine sampleStore
      { specTask with Participants := [⟨3, ""⟩, ⟨1, ""⟩] } ⟨3, "cy"⟩ ⟨1, "ann"⟩ "" "" "3"
      (by decide) (by decide) (by decide) (by decide) rfl (by decide) (by decide)).2⟩

/-! ## Updating a task -/

theorem map_update_ids (tasks : List TaskRow) (g : TaskRow → TaskRow)
    (hg : ∀ r, (g r).id = r.id) : (tasks.map g).map (·.id) = tasks.map (·.id) := by
  rw [List.map_map]
  apply List.map_congr_left
  intro r _
  exact hg r

/-- The result of `updateTaskHandler` on an existing task when the submitted
participant ids are distinct ids of participant rows. -/
theorem updateTaskHandler_ok (e : Engine) (db : DB) (id : String) (k : Int) (task : Task)
    (hid : id ≠ "") (hnum : e.numeric id = some k) (hmem : k ∈ db.taskIds)
    (hnd : (task.Participants.map (·.ID)).Nodup)
    (hex : ∀ p ∈ task.Participants, p.ID ∈ db.participantIds) :
    updateTaskHandler e db id (some task) =
      ({ db with
          tasks := db.tasks.map (fun r =>
            if r.id == k then
              { r with priority := task.Priority, task := task.Task,
                       start_date := task.StartDate, end_date := task.EndDate,
                       status := task.Status }
            else r),
          task_participants :=
            db.task_participants.filter (fun tp => !(tp.task_id == k)) ++
              task.Participants.map (fun p => { task_id := k, participant_id := p.ID }) },
       { status := StatusOK, payload := .task task }) := by
  have hv : e.asInt (.text id) = some k := by simpa [Engine.asInt] using hnum
  have hlen : (db.tasks.filter fun r => r.id == k).length ≠ 0 := by
    intro h0
    exact mem_taskIds_filter hmem (List.length_eq_zero.mp h0)
  have hids : (db.tasks.map (fun r =>
      if r.id == k then
        { r with priority := task.Priority, task := task.Task,
                 start_date := task.StartDate, end_date := task.EndDate,
                 status := task.Status }
      else r)).map (·.id) = db.tasks.map (·.id) := by
    apply map_update_ids
    intro r
    split <;> rfl
  have hloop := insertParticipants_ok hv task.Participants
    { db with
        tasks := db.tasks.map (fun r =>
          if r.id == k then
            { r with priority := task.Priority, task := task.Task,
                     start_date := task.StartDate, end_date := task.EndDate,
                     status := task.Status }
          else r),
        task_participants := db.task_participants.filter (fun tp => !(tp.task_id == k)) }
    hnd
    (by
      intro p _ hm
      simp only [List.mem_filter] at hm
      simpa using hm.2)
    (by
      intro _
      refine ⟨?_, hex⟩
      simp only [DB.taskIds, hids]
      exact hmem)
  unfold updateTaskHandler updateTask deleteTaskParticipants
  simp only [hid, if_false, eqParam_eq hv, hlen]
  rw [hloop]

/-- C1: on a well-formed store, for an existing task `k` (with whatever associations)
and a submitted participant list whose ids are distinct ids of participant rows,
`updateTaskHandler` answers 200 and a following `getTaskHandler` returns a task whose
participant ids are, up to order, exactly the submitted ids, each participant being a
stored row; the association rows of `k` after the update are exactly the ones of the
submitted ids, the rows of other tasks and the participants relation are unchanged. -/
theorem updateTask_replaces_participants (e : Engine) (db : DB) (id : String) (k : Int)
    (task : Task) (hwf : db.WF) (hid : id ≠ "") (hnum : e.numeric id = some k)
    (hmem : k ∈ db.taskIds) (hnd : (task.Participants.map (·.ID)).Nodup)
    (hex : ∀ p ∈ task.Participants, p.ID ∈ db.participantIds) :
    (updateTaskHandler e db id (some task)).2
      = { status := StatusOK, payload := .task task } ∧
    (∃ t : Task,
      getTaskHandler e (updateTaskHandler e db id (some task)).1 id
        = ((updateTaskHandler e db id (some task)).1,
           { status := StatusOK, payload := .task t }) ∧
      t.ID = k ∧
      (t.Participants.map (·.ID)).Perm (task.Participants.map (·.ID)) ∧
      ∀ q ∈ t.Participants, ({ id := q.ID, name := q.Name } : ParticipantRow)
        ∈ db.participants) ∧
    ((updateTaskHandler e db id (some task)).1.task_participants.filter
        (fun tp => tp.task_id == k)
      = task.Participants.map (fun p => { task_id := k, participant_id := p.ID })) ∧
    ((updateTaskHandler e db id (some task)).1.task_participants.filter
        (fun tp => !(tp.task_id == k))
      = db.task_participants.filter (fun tp => !(tp.task_id == k))) ∧
    (updateTaskHandler e db id (some task)).1.participants = db.participants := by
  rw [updateTaskHandler_ok e db id k task hid hnum hmem hnd hex]
  obtain ⟨db1, hdb1⟩ : ∃ db1 : DB, db1 =
      { db with
          tasks := db.tasks.map (fun r =>
            if r.id == k then
              { r with priority := task.Priority, task := task.Task,
                       start_date := task.StartDate, end_date := task.EndDate,
                       status := task.Status }
            else r),
          task_participants :=
            db.task_participants.filter (fun tp => !(tp.task_id == k)) ++
              task.Participants.map (fun p => { task_id := k, participant_id := p.ID }) } :=
    ⟨_, rfl⟩
  rw [← hdb1]
  have hparts : db1.participants = db.participants := by rw [hdb1]
  have htp : db1.task_participants =
      db.task_participants.filter (fun tp => !(tp.task_id == k)) ++
        task.Participants.map (fun p => { task_id := k, participant_id := p.ID }) := by
    rw [hdb1]
  have hids : db1.taskIds = db.taskIds := by
    rw [hdb1]
    apply map_update_ids
    intro r
    split <;> rfl
  have hold : ((db.task_participants.filter fun tp => !(tp.task_id == k)).filter
      fun tp => tp.task_id == k) = [] := by
    rw [List.filter_filter, List.filter_eq_nil_iff]
    intro tp _
    by_cases h : tp.task_id = k <;> simp [h]
  have hrows : (db1.task_participants.filter fun tp => tp.task_id == k)
      = task.Participants.map (fun p => { task_id := k, participant_id := p.ID }) := by
    rw [htp]
    exact filter_append_rows _ task.Participants hold
  refine ⟨rfl, ?_, hrows, ?_, hparts⟩
  · obtain ⟨r, _, hrk, hrow⟩ := @filter_task_unique db1 k (by rw [hids]; exact hwf.1)
      (by rw [hids]; exact hmem)
    refine ⟨_, getTaskHandler_found hid hnum hrow, hrk, ?_, ?_⟩
    · show ((joinParticipants db1 k).map (·.ID)).Perm _
      rw [@joinParticipants_ids db1 k (by unfold DB.participantIds; rw [hparts]; exact hwf.2.1)
        task.Participants hrows
        (by unfold DB.participantIds; rw [hparts]; exact hex)]
    · intro q hq
      have := @mem_joinParticipants db1 k q hq
      rw [hparts] at this
      exact this
  · rw [htp, List.filter_append, List.filter_filter]
    have hnew : ((task.Participants.map fun p =>
        ({ task_id := k, participant_id := p.ID } : TaskParticipantRow)).filter
        fun tp => !(tp.task_id == k)) = [] := by
      rw [List.filter_eq_nil_iff]
      intro tp htp
      obtain ⟨p, _, rfl⟩ := List.mem_map.mp htp
      simp
    rw [hnew, List.append_nil]
    simp

/-- C1 on the sample store: task 1, with participants 1 and 2, is updated to participant 3. -/
theorem updateTask_replaces_participants_witness :
    sampleStore.WF ∧
    ∃ t : Task,
      getTaskHandler mainEngine
          (updateTaskHandler mainEngine sampleStore "1"
            (some { specTask with Participants := [⟨3, ""⟩] })).1 "1"
        = ((updateTaskHandler mainEngine sampleStore "1"
              (some { specTask with Participants := [⟨3, ""⟩] })).1,
           { status := StatusOK, payload := .task t }) ∧
      t.ID = 1 ∧
      (t.Participants.map (·.ID)).Perm [3] ∧
      ∀ q ∈ t.Participants, ({ id := q.ID, name := q.Name } : ParticipantRow)
        ∈ sampleStore.participants :=
  ⟨by decide,
   (updateTask_replaces_participants mainEngine sampleStore "1" 1
      { specTask with Participants := [⟨3, ""⟩] }
      (by decide) (by decide) (by decide) (by decide) (by decide) (by decide)).2.1⟩

/-! ## Listing tasks -/

/-- C10: on a well-formed store `getAllTasksHandler` answers 200 with one entry per task
row, in the order and under the ids of the rows, and every entry is the very task that
`getTaskHandler` returns for the id of the entry: same id, fields and participants. -/
theorem listTasks_agrees_with_getTask (e : Engine) (db : DB) (hwf : db.WF) :
    ∃ ts : List Task,
      getAllTasksHandler e db = (db, { status := StatusOK, payload := .tasks ts }) ∧
      ts.length = db.tasks.length ∧
      ts.map (·.ID) = db.taskIds ∧
      ∀ t ∈ ts, ∀ id : String, id ≠ "" → e.numeric id = some t.ID →
        getTaskHandler e db id = (db, { status := StatusOK, payload := .task t }) := by
  refine ⟨(selectTasks db).map fun r =>
    scanTask e r (selectParticipants e db (.integer r.id)), rfl, ?_, ?_, ?_⟩
  · simp [selectTasks]
  · simp only [selectTasks, List.map_map, DB.taskIds]
    apply List.map_congr_left
    intro r _
    rfl
  · intro t ht id hid hnum
    obtain ⟨r, hr, rfl⟩ := List.mem_map.mp ht
    have hv : e.asInt (.integer r.id) = some r.id := rfl
    have hrow : (db.tasks.filter fun x => x.id == r.id) = [r] :=
      filter_key_eq_singleton (fun x : TaskRow => x.id) db.tasks hwf.1 r hr
    have hnum2 : e.numeric id = some r.id := hnum
    rw [getTaskHandler_found hid hnum2 hrow, selectParticipants_eq hv]
    rfl

/-- C10 on the sample store. -/
theorem listTasks_agrees_with_getTask_witness :
    sampleStore.WF ∧
    ∃ ts : List Task,
      getAllTasksHandler mainEngine sampleStore
        = (sampleStore, { status := StatusOK, payload := .tasks ts }) ∧
      ts.length = sampleStore.tasks.length ∧
      ts.map (·.ID) = sampleStore.taskIds ∧
      ∀ t ∈ ts, ∀ id : String, id ≠ "" → mainEngine.numeric id = some t.ID →
        getTaskHandler mainEngine sampleStore id
          = (sampleStore, { status := StatusOK, payload := .task t }) :=
  ⟨by decide, listTasks_agrees_with_getTask mainEngine sampleStore (by decide)⟩

/-! ## The statements keep the store well formed -/

theorem insertTask_WF (db : DB) (priority task start_date end_date status : String)
    (h : db.WF) : (insertTask db priority task start_date end_date status).1.WF := by
  obtain ⟨h1, h2, h3, h4, h5, h6, h7, h8⟩ := h
  have hfresh := nextRowid_not_mem db.tasks_seq db.taskIds
  have hgt := nextRowid_gt_seq db.tasks_seq db.taskIds
  refine ⟨?_, h2, h3, ?_, h5, ?_, h7, ?_⟩
  · show (List.map (fun r : TaskRow => r.id) (db.tasks ++ [_])).Nodup
    rw [List.map_append, List.nodup_append]
    refine ⟨h1, by simp, ?_⟩
    intro a ha hb
    simp only [List.map_cons, List.map_nil, List.mem_singleton] at hb
    exact hfresh (hb ▸ ha)
  · show 0 ≤ nextRowid db.tasks_seq db.taskIds
    omega
  · intro r hr
    have hr2 : r ∈ db.tasks ++ [_] := hr
    show 0 < r.id ∧ r.id ≤ nextRowid db.tasks_seq db.taskIds
    rcases List.mem_append.mp hr2 with hr3 | hr3
    · have := h6 r hr3
      omega
    · rw [List.mem_singleton] at hr3
      subst hr3
      exact ⟨by show 0 < nextRowid db.tasks_seq db.taskIds; omega, le_refl _⟩
  · intro tp htp
    show tp.task_id ∈ List.map (fun r : TaskRow => r.id) (db.tasks ++ [_])
    rw [List.map_append]
    exact List.mem_append_left _ (h8 tp htp)

theorem insertParticipant_WF (db : DB) (name : String) (h : db.WF) :
    (insertParticipant db name).WF := by
  obtain ⟨h1, h2, h3, h4, h5, h6, h7, h8⟩ := h
  have hfresh := nextRowid_not_mem db.participants_seq db.participantIds
  have hgt := nextRowid_gt_seq db.participants_seq db.participantIds
  refine ⟨h1, ?_, h3, h4, ?_, h6, ?_, h8⟩
  · show (List.map (fun r : ParticipantRow => r.id) (db.participants ++ [_])).Nodup
    rw [List.map_append, List.nodup_append]
    refine ⟨h2, by simp, ?_⟩
    intro a ha hb
    simp only [List.map_cons, List.map_nil, List.mem_singleton] at hb
    exact hfresh (hb ▸ ha)
  · show 0 ≤ nextRowid db.participants_seq db.participantIds
    omega
  · intro r hr
    have hr2 : r ∈ db.participants ++ [_] := hr
    show 0 < r.id ∧ r.id ≤ nextRowid db.participants_seq db.participantIds
    rcases List.mem_append.mp hr2 with hr3 | hr3
    · have := h7 r hr3
      omega
    · rw [List.mem_singleton] at hr3
      subst hr3
      exact ⟨by show 0 < nextRowid db.participants_seq db.participantIds; omega, le_refl _⟩

/-- What a successful `INSERT INTO task_participants` has checked and done. -/
theorem insertTaskParticipant_ok_inv {e : Engine} {db db1 : DB} {v pv : Value}
    (hok : insertTaskParticipant e db v pv = .ok db1) :
    ∃ t p, e.asInt v = some t ∧ e.asInt pv = some p ∧
      ({ task_id := t, participant_id := p } : TaskParticipantRow) ∉ db.task_participants ∧
      (e.foreignKeys = true → t ∈ db.taskIds ∧ p ∈ db.participantIds) ∧
      db1 = { db with task_participants :=
                db.task_participants ++ [{ task_id := t, participant_id := p }] } := by
  unfold insertTaskParticipant at hok
  cases ht : e.asInt v with
  | none => rw [ht] at hok; simp at hok
  | some t =>
    cases hp : e.asInt pv with
    | none => rw [ht, hp] at hok; simp at hok
    | some p =>
      rw [ht, hp] at hok
      simp only [] at hok
      by_cases hmem : ({ task_id := t, participant_id := p } : TaskParticipantRow)
          ∈ db.task_participants
      · rw [if_pos hmem] at hok
        cases hok
      · rw [if_neg hmem] at hok
        refine ⟨t, p, rfl, rfl, hmem, ?_⟩
        split at hok
        · cases hok
        · rename_i hfk
          refine ⟨?_, ?_⟩
          · intro hfke
            cases hA : decide (t ∈ db.tasks.map (·.id)) &&
                decide (p ∈ db.participants.map (·.id)) with
            | false =>
              exfalso
              apply hfk
              rw [hfke, hA]
              rfl
            | true =>
              rw [Bool.and_eq_true] at hA
              exact ⟨of_decide_eq_true hA.1, of_decide_eq_true hA.2⟩
          · injection hok with hok
            exact hok.symm

theorem insertTaskParticipant_Inv {e : Engine} {db db1 : DB} {v pv : Value}
    (h : Inv e db) (hk : ∀ k, e.asInt v = some k → k ∈ db.taskIds)
    (hok : insertTaskParticipant e db v pv = .ok db1) :
    Inv e db1 ∧ db1.taskIds = db.taskIds := by
  obtain ⟨t, p, ht, _, hnew, hfk, rfl⟩ := insertTaskParticipant_ok_inv hok
  obtain ⟨⟨h1, h2, h3, h4, h5, h6, h7, h8⟩, hri⟩ := h
  refine ⟨⟨⟨h1, h2, ?_, h4, h5, h6, h7, ?_⟩, ?_⟩, rfl⟩
  · show (db.task_participants ++ [_]).Nodup
    rw [List.nodup_append]
    refine ⟨h3, by simp, ?_⟩
    intro a ha hb
    rw [List.mem_singleton] at hb
    exact hnew (hb ▸ ha)
  · intro tp htp
    have htp2 : tp ∈ db.task_participants ++ [_] := htp
    rcases List.mem_append.mp htp2 with h9 | h9
    · exact h8 tp h9
    · rw [List.mem_singleton] at h9
      subst h9
      exact hk t ht
  · intro hfke tp htp
    have htp2 : tp ∈ db.task_participants ++ [_] := htp
    rcases List.mem_append.mp htp2 with h9 | h9
    · exact hri hfke tp h9
    · rw [List.mem_singleton] at h9
      subst h9
      exact hfk hfke

theorem insertParticipants_Inv {e : Engine} {v : Value} :
    ∀ (ps : List Participant) (db : DB), Inv e db →
      (∀ k, e.asInt v = some k → k ∈ db.taskIds) →
      Inv e (insertParticipants e v db ps).1 := by
  intro ps
  induction ps with
  | nil => intro db h _; exact h
  | cons p rest ih =>
    intro db h hk
    rw [insertParticipants]
    cases hstep : insertTaskParticipant e db v (.integer p.ID) with
    | error msg => exact h
    | ok db1 =>
      obtain ⟨hinv, hids⟩ := insertTaskParticipant_Inv h hk hstep
      exact ih db1 hinv (fun k hkv => hids ▸ hk k hkv)

theorem nodup_map_filter {α : Type} (f : α → Int) (p : α → Bool) (l : List α)
    (h : (l.map f).Nodup) : ((l.filter p).map f).Nodup :=
  List.Nodup.sublist ((List.filter_sublist l).map f) h

theorem insertTask_Inv {e : Engine} (db : DB)
    (priority task start_date end_date status : String) (h : Inv e db) :
    Inv e (insertTask db priority task start_date end_date status).1 := by
  refine ⟨insertTask_WF db _ _ _ _ _ h.1, ?_⟩
  intro hfke tp htp
  obtain ⟨h1, h2⟩ := h.2 hfke tp htp
  refine ⟨?_, h2⟩
  show tp.task_id ∈ List.map (fun r : TaskRow => r.id) (db.tasks ++ [_])
  rw [List.map_append]
  exact List.mem_append_left _ h1

theorem insertParticipant_Inv {e : Engine} (db : DB) (name : String) (h : Inv e db) :
    Inv e (insertParticipant db name) := by
  refine ⟨insertParticipant_WF db _ h.1, ?_⟩
  intro hfke tp htp
  obtain ⟨h1, h2⟩ := h.2 hfke tp htp
  refine ⟨h1, ?_⟩
  show tp.participant_id ∈ List.map (fun r : ParticipantRow => r.id) (db.participants ++ [_])
  rw [List.map_append]
  exact List.mem_append_left _ h2

theorem updateTask_Inv {e : Engine} (db : DB)
    (priority task start_date end_date status : String) (id : Value) (h : Inv e db) :
    Inv e (updateTask e db priority task start_date end_date status id).1 ∧
    (updateTask e db priority task start_date end_date status id).1.taskIds = db.taskIds := by
  have hids : (updateTask e db priority task start_date end_date status id).1.taskIds
      = db.taskIds := by
    unfold updateTask DB.taskIds
    apply map_update_ids
    intro r
    split <;> rfl
  obtain ⟨⟨h1, h2, h3, h4, h5, h6, h7, h8⟩, hri⟩ := h
  refine ⟨⟨⟨by rw [hids]; exact h1, h2, h3, h4, h5, ?_, h7, ?_⟩, ?_⟩, hids⟩
  · intro r hr
    unfold updateTask at hr
    obtain ⟨r0, hr0, rfl⟩ := List.mem_map.mp hr
    have := h6 r0 hr0
    split <;> exact this
  · intro tp htp
    rw [hids]
    exact h8 tp htp
  · intro hfke tp htp
    rw [hids]
    exact hri hfke tp htp

theorem deleteTaskParticipants_Inv {e : Engine} (db : DB) (id : Value) (h : Inv e db) :
    Inv e (deleteTaskParticipants e db id) ∧
    (deleteTaskParticipants e db id).taskIds = db.taskIds ∧
    ∀ tp ∈ (deleteTaskParticipants e db id).task_participants,
      e.eqParam tp.task_id id = false := by
  obtain ⟨⟨h1, h2, h3, h4, h5, h6, h7, h8⟩, hri⟩ := h
  refine ⟨⟨⟨h1, h2, h3.filter _, h4, h5, h6, h7, ?_⟩, ?_⟩, rfl, ?_⟩
  · intro tp htp
    exact h8 tp (List.mem_filter.mp htp).1
  · intro hfke tp htp
    exact hri hfke tp (List.mem_filter.mp htp).1
  · intro tp htp
    simpa using (List.mem_filter.mp htp).2

theorem deleteTask_Inv {e : Engine} (db : DB) (id : Value) (h : Inv e db)
    (hno : ∀ tp ∈ db.task_participants, e.eqParam tp.task_id id = false) :
    Inv e (deleteTask e db id).1 := by
  obtain ⟨⟨h1, h2, h3, h4, h5, h6, h7, h8⟩, hri⟩ := h
  have hsub : ∀ tp ∈ (deleteTask e db id).1.task_participants, tp ∈ db.task_participants := by
    intro tp htp
    unfold deleteTask at htp
    simp only [] at htp
    split at htp
    · exact (List.mem_filter.mp htp).1
    · exact htp
  have hkeep : ∀ tp ∈ db.task_participants, tp.task_id ∈ (deleteTask e db id).1.taskIds := by
    intro tp htp
    obtain ⟨r, hr, hrid⟩ := List.mem_map.mp (h8 tp htp)
    have hr2 : r ∈ db.tasks.filter fun r => !e.eqParam r.id id := by
      rw [List.mem_filter]
      refine ⟨hr, ?_⟩
      rw [hrid, hno tp htp]
      rfl
    rw [← hrid]
    exact List.mem_map_of_mem _ hr2
  refine ⟨⟨nodup_map_filter _ _ _ h1, h2, ?_, h4, h5, ?_, h7, ?_⟩, ?_⟩
  · unfold deleteTask
    simp only []
    split
    · exact h3.filter _
    · exact h3
  · intro r hr
    exact h6 r (List.mem_filter.mp hr).1
  · intro tp htp
    exact hkeep tp (hsub tp htp)
  · intro hfke tp htp
    exact ⟨hkeep tp (hsub tp htp), (hri hfke tp (hsub tp htp)).2⟩

theorem deleteParticipant_Inv {e : Engine} (db : DB) (id : Value) (h : Inv e db) :
    Inv e (deleteParticipant e db id) := by
  obtain ⟨⟨h1, h2, h3, h4, h5, h6, h7, h8⟩, hri⟩ := h
  have hsub : ∀ tp ∈ (deleteParticipant e db id).task_participants,
      tp ∈ db.task_participants := by
    intro tp htp
    unfold deleteParticipant at htp
    simp only [] at htp
    split at htp
    · exact (List.mem_filter.mp htp).1
    · exact htp
  refine ⟨⟨h1, nodup_map_filter _ _ _ h2, ?_, h4, h5, h6, ?_, ?_⟩, ?_⟩
  · unfold deleteParticipant
    simp only []
    split
    · exact h3.filter _
    · exact h3
  · intro r hr
    exact h7 r (List.mem_filter.mp hr).1
  · intro tp htp
    exact h8 tp (hsub tp htp)
  · intro hfke tp htp
    refine ⟨h8 tp (hsub tp htp), ?_⟩
    have htp2 : tp ∈ db.task_participants.filter fun tp =>
        !decide (tp.participant_id ∈
          (db.participants.filter fun r => e.eqParam r.id id).map (fun r => r.id)) := by
      unfold deleteParticipant at htp
      simp only [hfke, if_true] at htp
      exact htp
    obtain ⟨hmem, hkeep⟩ := List.mem_filter.mp htp2
    have hkeep2 : tp.participant_id ∉
        (db.participants.filter fun r => e.eqParam r.id id).map (fun r => r.id) := by
      simpa using hkeep
    obtain ⟨r, hr, hrid⟩ := List.mem_map.mp (hri hfke tp hmem).2
    have hr2 : r ∈ db.participants.filter fun r => !e.eqParam r.id id := by
      rw [List.mem_filter]
      refine ⟨hr, ?_⟩
      cases hm : e.eqParam r.id id with
      | false => rfl
      | true =>
        exfalso
        apply hkeep2
        rw [← hrid]
        exact List.mem_map_of_mem _ (List.mem_filter.mpr ⟨hr, hm⟩)
    rw [← hrid]
    exact List.mem_map_of_mem _ hr2

/-! ## The handlers keep the store well formed -/

theorem addTaskHandler_Inv {e : Engine} (db : DB) (body : Option Task) (h : Inv e db) :
    Inv e (addTaskHandler e db body).1 := by
  cases body with
  | none => exact h
  | some newTask =>
    have hfst : (addTaskHandler e db (some newTask)).1 =
        (insertParticipants e
          (.integer (insertTask db newTask.Priority newTask.Task newTask.StartDate
            newTask.EndDate newTask.Status).2)
          (insertTask db newTask.Priority newTask.Task newTask.StartDate
            newTask.EndDate newTask.Status).1 newTask.Participants).1 := by
      unfold addTaskHandler
      simp only []
      split <;> rename_i heq <;> rw [heq]
    rw [hfst]
    apply insertParticipants_Inv _ _ (insertTask_Inv db _ _ _ _ _ h)
    intro k hk
    have hk2 : (insertTask db newTask.Priority newTask.Task newTask.StartDate
        newTask.EndDate newTask.Status).2 = k := by
      simpa [Engine.asInt] using hk
    rw [← hk2]
    show _ ∈ List.map (fun r : TaskRow => r.id) (db.tasks ++ [_])
    rw [List.map_append]
    apply List.mem_append_right
    rw [List.map_cons, List.map_nil, List.mem_singleton]
    rfl

theorem updateTaskHandler_Inv {e : Engine} (db : DB) (id : String) (body : Option Task)
    (h : Inv e db) : Inv e (updateTaskHandler e db id body).1 := by
  unfold updateTaskHandler
  by_cases hid : id = ""
  · simp only [hid, if_true]
    exact h
  · simp only [hid, if_false]
    cases body with
    | none => exact h
    | some updatedTask =>
      simp only []
      obtain ⟨hinv1, hids1⟩ := updateTask_Inv db updatedTask.Priority updatedTask.Task
        updatedTask.StartDate updatedTask.EndDate updatedTask.Status (.text id) h
      split
      · exact hinv1
      · rename_i haff
        obtain ⟨hinv2, hids2, _⟩ := deleteTaskParticipants_Inv
          (updateTask e db updatedTask.Priority updatedTask.Task updatedTask.StartDate
            updatedTask.EndDate updatedTask.Status (.text id)).1 (.text id) hinv1
        have hk : ∀ k, e.asInt (.text id) = some k →
            k ∈ (deleteTaskParticipants e
              (updateTask e db updatedTask.Priority updatedTask.Task updatedTask.StartDate
                updatedTask.EndDate updatedTask.Status (.text id)).1 (.text id)).taskIds := by
          intro k hkv
          rw [hids2, hids1]
          have hne : (db.tasks.filter fun r => e.eqParam r.id (.text id)) ≠ [] := by
            intro hnil
            apply haff
            show (db.tasks.filter fun r => e.eqParam r.id (.text id)).length = 0
            rw [hnil]
            rfl
          obtain ⟨r, hr⟩ := List.exists_mem_of_ne_nil _ hne
          obtain ⟨hr1, hr2⟩ := List.mem_filter.mp hr
          rw [eqParam_eq hkv] at hr2
          have : r.id = k := by simpa using hr2
          rw [← this]
          exact List.mem_map_of_mem _ hr1
        have := insertParticipants_Inv updatedTask.Participants _ hinv2 hk
        split <;> rename_i heq <;> rw [heq] at this <;> exact this

theorem deleteTaskHandler_Inv {e : Engine} (db : DB) (id : String) (h : Inv e db) :
    Inv e (deleteTaskHandler e db id).1 := by
  unfold deleteTaskHandler
  by_cases hid : id = ""
  · simp only [hid, if_true]
    exact h
  · simp only [hid, if_false]
    obtain ⟨hinv1, _, hno⟩ := deleteTaskParticipants_Inv db (.text id) h
    have := deleteTask_Inv _ (.text id) hinv1 hno
    split <;> exact this

theorem serve_Inv {e : Engine} (db : DB) (r : Request) (h : Inv e db) :
    Inv e (serve e db r).1 := by
  cases r with
  | listTasks => exact h
  | getTask id =>
    show Inv e (getTaskHandler e db id).1
    unfold getTaskHandler
    split
    · exact h
    · split <;> exact h
  | createTask body => exact addTaskHandler_Inv db body h
  | updateTask id body => exact updateTaskHandler_Inv db id body h
  | deleteTask id => exact deleteTaskHandler_Inv db id h
  | listParticipants => exact h
  | createParticipant body =>
    show Inv e (addParticipantHandler db body).1
    cases body with
    | none => exact h
    | some participant => exact insertParticipant_Inv db _ h
  | deleteParticipant id =>
    show Inv e (deleteParticipantHandler e db id).1
    unfold deleteParticipantHandler
    split
    · exact h
    · exact deleteParticipant_Inv db _ h

theorem run_Inv {e : Engine} : ∀ (rs : List Request) (db : DB), Inv e db → Inv e (run e db rs) := by
  intro rs
  induction rs with
  | nil => intro db h; exact h
  | cons r rs ih => intro db h; exact ih _ (serve_Inv db r h)

theorem initDB_Inv (e : Engine) : Inv e initDB := by
  refine ⟨by decide, ?_⟩
  intro _ tp htp
  exact absurd htp (List.not_mem_nil _)

/-! ## Reachable stores -/

/-- Every store reached from the empty one is well formed, whatever the engine
settings and the requests: in particular every association row references an existing
task. -/
theorem reachable_WF (e : Engine) (rs : List Request) : (run e initDB rs).WF :=
  (run_Inv rs initDB (initDB_Inv e)).1

/-- With foreign-key enforcement on, every store reached from the empty one has
referential integrity: each association row references an existing task and an
existing participant. -/
theorem reachable_refIntegrity_of_foreignKeys (e : Engine) (rs : List Request)
    (h : e.foreignKeys = true) : (run e initDB rs).RefIntegrity :=
  (run_Inv rs initDB (initDB_Inv e)).2 h

/-- Referential integrity with enforcement on, after a request that names a missing participant and a participant deletion. -/
theorem reachable_refIntegrity_of_foreignKeys_witness :
    (run { mainEngine with foreignKeys := true } initDB
      [.createParticipant (some ⟨0, "ann"⟩),
       .createTask (some { specTask with Participants := [⟨1, ""⟩, ⟨7, ""⟩] }),
       .deleteParticipant "1"]).RefIntegrity :=
  reachable_refIntegrity_of_foreignKeys { mainEngine with foreignKeys := true } _ rfl

/-- C9 fails on the program: `main` opens the database without foreign-key
enforcement, so (1) `addTaskHandler` stores an association row for a participant id
that names no participant, and (2) `deleteParticipantHandler` leaves the association
rows of the deleted participant behind. -/
theorem refIntegrity_broken :
    mainEngine.foreignKeys = false ∧
    ¬ (run mainEngine initDB
        [.createTask (some { specTask with Participants := [⟨1, ""⟩] })]).RefIntegrity ∧
    (run mainEngine initDB
        [.createParticipant (some ⟨0, "ann"⟩),
         .createTask (some { specTask with Participants := [⟨1, ""⟩] })]).RefIntegrity ∧
    ¬ (run mainEngine initDB
        [.createParticipant (some ⟨0, "ann"⟩),
         .createTask (some { specTask with Participants := [⟨1, ""⟩] }),
         .deleteParticipant "1"]).RefIntegrity := by
  decide

/-! ## Deleting a participant -/

theorem join_after_delete (parts : List ParticipantRow) (P : Int) (c : Bool) :
    ∀ rows : List TaskParticipantRow,
      (((rows.filter fun tp => !c || !(tp.participant_id == P)).map fun tp =>
        ((parts.filter fun r => !(r.id == P)).filter fun p => p.id == tp.participant_id).map
          fun p => { ID := p.id, Name := p.name : Participant }).flatten)
      = ((rows.map fun tp =>
          (parts.filter fun p => p.id == tp.participant_id).map
            fun p => { ID := p.id, Name := p.name : Participant }).flatten).filter
          fun q => !(q.ID == P) := by
  intro rows
  induction rows with
  | nil => rfl
  | cons tp rest ih =>
    have hone : (((parts.filter fun r => !(r.id == P)).filter
          fun p => p.id == tp.participant_id).map
          fun p => { ID := p.id, Name := p.name : Participant })
        = ((parts.filter fun p => p.id == tp.participant_id).map
            fun p => { ID := p.id, Name := p.name : Participant }).filter
            fun q => !(q.ID == P) := by
      rw [List.filter_filter, List.filter_map, List.filter_filter]
      congr 1
      apply List.filter_congr
      intro r _
      simp [Bool.and_comm]
    rw [List.map_cons, List.flatten_cons, List.filter_append, ← ih, ← hone]
    by_cases hpred : (!c || !(tp.participant_id == P)) = true
    · simp only [List.filter_cons, hpred, if_true, List.map_cons, List.flatten_cons]
    · have hp : tp.participant_id = P := by
        by_contra hne
        apply hpred
        simp [hne]
      have hnil : ((parts.filter fun r => !(r.id == P)).filter
          fun p => p.id == tp.participant_id) = [] := by
        rw [List.filter_filter, List.filter_eq_nil_iff]
        intro r _
        by_cases hr : r.id = P <;> simp [hr, hp]
      simp only [List.filter_cons, hpred, if_false, hnil, List.map_nil, List.nil_append]
      trivial

/-- What `deleteParticipantHandler` does for an id that `Sscanf` reads as `P`, under
either engine setting: it answers 200, removes the participant row, leaves the tasks
alone, and the participants the join returns for any task afterwards are the former
ones without `P`.  The association rows that reference `P` are removed when foreign keys are
enforced, and all stay when they are not. -/
theorem deleteParticipant_effect (e : Engine) (db : DB) (id : String) (P : Int)
    (hs : Sscanf id = some P) :
    (deleteParticipantHandler e db id).2.status = StatusOK ∧
    (deleteParticipantHandler e db id).1.participants
      = db.participants.filter (fun r => !(r.id == P)) ∧
    (deleteParticipantHandler e db id).1.tasks = db.tasks ∧
    (∀ v, selectParticipants e (deleteParticipantHandler e db id).1 v
      = (selectParticipants e db v).filter fun q => !(q.ID == P)) ∧
    (e.foreignKeys = true → P ∈ db.participantIds →
      ∀ tp ∈ (deleteParticipantHandler e db id).1.task_participants, tp.participant_id ≠ P) ∧
    (e.foreignKeys = false →
      (deleteParticipantHandler e db id).1.task_participants = db.task_participants) := by
  have hv : e.asInt (.integer P) = some P := rfl
  have hdb : (deleteParticipantHandler e db id).1 =
      { db with
          participants := db.participants.filter (fun r => !(r.id == P)),
          task_participants := db.task_participants.filter
            (fun tp => !(e.foreignKeys && decide (P ∈ db.participantIds)) ||
              !(tp.participant_id == P)) } := by
    have hmemD : ∀ a : Int,
        a ∈ (db.participants.filter fun r => r.id == P).map (fun r => r.id)
          ↔ P ∈ db.participantIds ∧ a = P := by
      intro a
      constructor
      · intro ha
        obtain ⟨r, hr, hra⟩ := List.mem_map.mp ha
        obtain ⟨hr1, hr2⟩ := List.mem_filter.mp hr
        have hrP : r.id = P := by simpa using hr2
        exact ⟨hrP ▸ List.mem_map_of_mem _ hr1, hra ▸ hrP⟩
      · rintro ⟨hP, rfl⟩
        obtain ⟨r, hr, hra⟩ := List.mem_map.mp hP
        rw [← hra]
        exact List.mem_map_of_mem _ (List.mem_filter.mpr ⟨hr, by simp [hra]⟩)
    unfold deleteParticipantHandler deleteParticipant
    rw [hs]
    simp only [eqParam_eq hv]
    cases e.foreignKeys with
    | false => simp
    | true =>
      simp only [if_true, Bool.true_and]
      congr 1
      apply List.filter_congr
      intro tp _
      by_cases h1 : P ∈ db.participantIds <;> by_cases h2 : tp.participant_id = P <;>
        simp [hmemD, h1, h2]
  have hst : (deleteParticipantHandler e db id).2.status = StatusOK := by
    unfold deleteParticipantHandler
    rw [hs]
  rw [hdb]
  refine ⟨hst, rfl, rfl, ?_, ?_, ?_⟩
  · intro v
    cases hk : e.asInt v with
    | none =>
      unfold selectParticipants
      simp only [eqParam_none hk, List.filter_false, List.map_nil, List.flatten_nil,
        List.filter_nil]
    | some k =>
    rw [selectParticipants_eq hk, selectParticipants_eq hk]
    simp only []
    rw [← join_after_delete db.participants P
        (e.foreignKeys && decide (P ∈ db.participantIds)),
      List.filter_filter, List.filter_filter]
    congr 2
    apply List.filter_congr
    intro tp _
    exact Bool.and_comm _ _
  · intro hfke hP tp htp
    simp only [hfke, hP, decide_True, Bool.and_self, Bool.not_true, Bool.false_or,
      List.mem_filter] at htp
    simpa using htp.2
  · intro hfke
    simp [hfke]

/-- Deleting participant 1 of the sample store. -/
theorem deleteParticipant_effect_witness :
    (deleteParticipantHandler mainEngine sampleStore "1").2.status = StatusOK :=
  (deleteParticipant_effect mainEngine sampleStore "1" 1 (by decide)).1

/-- C8 fails on the program: in a store where participant 1 is associated with tasks 1
and 2, `deleteParticipantHandler` answers 200 and removes the participant row, but
both association rows that reference participant 1 are still in the store, since
nothing enforces the declared `ON DELETE CASCADE` and the handler deletes no
association row itself.  The tasks fetched afterwards no longer list participant 1. -/
theorem deleteParticipant_leaves_association_rows :
    sampleStore.WF ∧
    ({ task_id := 1, participant_id := 1 } : TaskParticipantRow)
      ∈ sampleStore.task_participants ∧
    ({ task_id := 2, participant_id := 1 } : TaskParticipantRow)
      ∈ sampleStore.task_participants ∧
    (deleteParticipantHandler mainEngine sampleStore "1").2.status = StatusOK ∧
    1 ∉ (deleteParticipantHandler mainEngine sampleStore "1").1.participantIds ∧
    ({ task_id := 1, participant_id := 1 } : TaskParticipantRow)
      ∈ (deleteParticipantHandler mainEngine sampleStore "1").1.task_participants ∧
    ({ task_id := 2, participant_id := 1 } : TaskParticipantRow)
      ∈ (deleteParticipantHandler mainEngine sampleStore "1").1.task_participants ∧
    (getTaskHandler mainEngine (deleteParticipantHandler mainEngine sampleStore "1").1 "1").2
      = { status := StatusOK,
          payload := .task { specTask with ID := 1, StartDate := "2024-01-01T00:00:00Z",
                                           EndDate := "2024-01-02T00:00:00Z",
                                           Participants := [⟨2, "bob"⟩] } } ∧
    (getTaskHandler mainEngine (deleteParticipantHandler mainEngine sampleStore "1").1 "2").2
      = { status := StatusOK,
          payload := .task { specTask with ID := 2, Task := "review",
                                           StartDate := "2024-01-01T00:00:00Z",
                                           EndDate := "2024-01-02T00:00:00Z",
                                           Participants := [] } } := by
  decide

/-! ## The AUTOINCREMENT counter of `tasks` never decreases -/

theorem insertParticipants_tasks_seq {e : Engine} {v : Value} :
    ∀ (ps : List Participant) (db : DB),
      (insertParticipants e v db ps).1.tasks_seq = db.tasks_seq := by
  intro ps
  induction ps with
  | nil => intro db; rfl
  | cons p rest ih =>
    intro db
    rw [insertParticipants]
    cases hstep : insertTaskParticipant e db v (.integer p.ID) with
    | error msg => rfl
    | ok db1 =>
      obtain ⟨t, q, _, _, _, _, rfl⟩ := insertTaskParticipant_ok_inv hstep
      exact ih _

/-- No request lowers the counter from which task ids are drawn, so an id handed out
by `addTaskHandler`, which exceeds the counter, differs from every id handed out
before, deleted tasks included. -/
theorem serve_tasks_seq_mono (e : Engine) (db : DB) (r : Request) :
    db.tasks_seq ≤ (serve e db r).1.tasks_seq := by
  cases r with
  | listTasks => exact le_refl _
  | getTask id =>
    show _ ≤ (getTaskHandler e db id).1.tasks_seq
    unfold getTaskHandler
    split
    · exact le_refl _
    · split <;> exact le_refl _
  | createTask body =>
    show _ ≤ (addTaskHandler e db body).1.tasks_seq
    cases body with
    | none => exact le_refl _
    | some newTask =>
      have hfst : (addTaskHandler e db (some newTask)).1 =
          (insertParticipants e
            (.integer (insertTask db newTask.Priority newTask.Task newTask.StartDate
              newTask.EndDate newTask.Status).2)
            (insertTask db newTask.Priority newTask.Task newTask.StartDate
              newTask.EndDate newTask.Status).1 newTask.Participants).1 := by
        unfold addTaskHandler
        simp only []
        split <;> rename_i heq <;> rw [heq]
      rw [hfst, insertParticipants_tasks_seq]
      exact le_of_lt (nextRowid_gt_seq db.tasks_seq db.taskIds)
  | updateTask id body =>
    show _ ≤ (updateTaskHandler e db id body).1.tasks_seq
    unfold updateTaskHandler
    split
    · exact le_refl _
    · cases body with
      | none => exact le_refl _
      | some updatedTask =>
        simp only []
        split
        · exact le_refl _
        · have := @insertParticipants_tasks_seq e (.text id) updatedTask.Participants
            (deleteTaskParticipants e
              (updateTask e db updatedTask.Priority updatedTask.Task updatedTask.StartDate
                updatedTask.EndDate updatedTask.Status (.text id)).1 (.text id))
          split <;> rename_i heq <;> rw [heq] at this <;> exact le_of_eq this.symm
  | deleteTask id =>
    show _ ≤ (deleteTaskHandler e db id).1.tasks_seq
    unfold deleteTaskHandler
    split
    · exact le_refl _
    · simp only []
      split <;> exact le_refl _
  | listParticipants => exact le_refl _
  | createParticipant body =>
    show _ ≤ (addParticipantHandler db body).1.tasks_seq
    cases body with
    | none => exact le_refl _
    | some participant => exact le_refl _
  | deleteParticipant id =>
    show _ ≤ (deleteParticipantHandler e db id).1.tasks_seq
    unfold deleteParticipantHandler
    split <;> exact le_refl _

end TodoServer
